import Mathlib

/-!
Verification of the cli-agent daemon core: a shallow embedding of the
per-session task runner (`src/tasks/runner.ts`), the wire protocol
(`protocol.ts`), the daemon connection loop (`stream.ts`), the event
broadcaster, and the session registry (`commands/context.ts`), together
with proofs of the spec's claims about them.

The task runner is single-threaded JavaScript: the atomic steps of the
system are the synchronous segments between `await` suspension points.
`enqueue` runs synchronously through `runNext` up to `await done` (so it
may start the head task in the same step); `cancel` is fully synchronous
(aborting a running task only raises the abort signal; the status change
happens later, in the continuation after `await done`); the continuation
after `await done` marks the task terminal and synchronously starts the
next queued task, if any.  These three segments are the constructors of
the `Step` relation below.
-/

namespace CliAgent

/-! ## Task runner state (`src/tasks/runner.ts`) -/

inductive TaskStatus where
  | queued
  | running
  | completed
  | failed
  | cancelled
deriving DecidableEq, Repr

/-- `TaskInfo` from `runner.ts`.  Ids are modelled as naturals drawn from a
counter (the source uses `crypto.randomUUID()`, whose only relevant
property is freshness). -/
structure TaskInfo where
  id : Nat
  name : String
  status : TaskStatus
  createdAt : Nat
  durationMs : Int
  startedAt : Option Nat := none
  endedAt : Option Nat := none
  result : Option String := none
  error : Option String := none
deriving DecidableEq, Repr

/-- The private fields of class `TaskRunner`, plus instrumentation:
`aborted` records the ids whose `AbortController.abort()` was called,
`events` the `onEvent` calls (task id, status), `started` the ids in the
order they transitioned to `running`. -/
structure RunnerState where
  tasks : List TaskInfo
  queue : List Nat
  running : Option Nat
  runningState : List Nat
  aborted : List Nat
  nextId : Nat
  events : List (Nat × TaskStatus)
  started : List Nat
deriving DecidableEq, Repr

def initRunner : RunnerState :=
  { tasks := [], queue := [], running := none, runningState := [],
    aborted := [], nextId := 0, events := [], started := [] }

/-- `this.tasks.get(taskId)` (`Map` keyed by id). -/
def findTask (ts : List TaskInfo) (tid : Nat) : Option TaskInfo :=
  ts.find? (fun t => t.id = tid)

/-- In-place mutation of the `TaskInfo` object stored in the `Map`. -/
def updateTask (ts : List TaskInfo) (tid : Nat) (f : TaskInfo → TaskInfo) :
    List TaskInfo :=
  ts.map (fun t => if t.id = tid then f t else t)

/-- The synchronous prefix of `runNext` (lines 82-106): if the running
slot is free and the queue is non-empty, shift the head, mark it
`running`, emit `running`, occupy the slot, and register the
`AbortController`/timer in `runningState`.  Execution then suspends at
`await done`. -/
def startNext (now : Nat) (s : RunnerState) : RunnerState :=
  if s.running.isSome then s
  else
    match s.queue with
    | [] => s
    | nextId :: rest =>
      match findTask s.tasks nextId with
      | none => { s with queue := rest }
      | some _ =>
        { s with
          tasks := updateTask s.tasks nextId
            (fun t => { t with status := .running, startedAt := some now }),
          queue := rest,
          running := some nextId,
          runningState := s.runningState ++ [nextId],
          events := s.events ++ [(nextId, .running)],
          started := s.started ++ [nextId] }

/-- `enqueue(name, durationMs)` (lines 37-51): create the task in
`queued`, append to the tail of the queue, emit `queued`, then
`void this.runNext()` runs synchronously up to its first `await`.
The first component is the returned `info` as created (the source
returns the object reference, which the synchronous part of `runNext`
may already have moved to `running`; the claims only use the state,
where that update is applied). -/
def enqueueOp (name : String) (durationMs : Int) (now : Nat)
    (s : RunnerState) : TaskInfo × RunnerState :=
  let info : TaskInfo :=
    { id := s.nextId, name := name, status := .queued,
      createdAt := now, durationMs := durationMs }
  let s1 : RunnerState :=
    { s with
      tasks := s.tasks ++ [info],
      queue := s.queue ++ [info.id],
      nextId := s.nextId + 1,
      events := s.events ++ [(info.id, .queued)] }
  (info, startNext now s1)

/-- `cancel(taskId)` (lines 61-80).  A queued task is removed from the
queue and marked `cancelled` synchronously (event emitted); for the
running task, `runningState.get(taskId)?.controller.abort()` merely
raises the abort signal; a terminal task is returned unchanged; an
unknown id yields `undefined`. -/
def cancelOp (tid : Nat) (now : Nat) (s : RunnerState) :
    Option TaskInfo × RunnerState :=
  match findTask s.tasks tid with
  | none => (none, s)
  | some task =>
    if task.status = .queued then
      let task' : TaskInfo := { task with status := .cancelled, endedAt := some now }
      (some task',
        { s with
          tasks := updateTask s.tasks tid
            (fun t => { t with status := .cancelled, endedAt := some now }),
          queue := s.queue.filter (fun i => i ≠ tid),
          events := s.events ++ [(tid, .cancelled)] })
    else if task.status = .running then
      (some task,
        if tid ∈ s.runningState then
          { s with aborted := if tid ∈ s.aborted then s.aborted else tid :: s.aborted }
        else s)
    else (some task, s)

/-- The continuation of `runNext` after `await done` (lines 108-124):
mark the task `completed` (timer fired) or `cancelled` (abort signal
observed), emit the terminal event, record the end time, release the
running slot, and — if the queue is non-empty — run the synchronous
prefix of the next `runNext`. -/
def finishOp (completedOk : Bool) (now : Nat) (s : RunnerState) : RunnerState :=
  match s.running with
  | none => s
  | some tid =>
    match findTask s.tasks tid with
    | none => s
    | some _ =>
      let f : TaskInfo → TaskInfo :=
        if completedOk then
          fun t => { t with status := .completed, result := some "ok", endedAt := some now }
        else
          fun t => { t with status := .cancelled, error := some "cancelled", endedAt := some now }
      let ev : TaskStatus := if completedOk then .completed else .cancelled
      let s1 : RunnerState :=
        { s with
          tasks := updateTask s.tasks tid f,
          events := s.events ++ [(tid, ev)],
          runningState := s.runningState.filter (fun i => i ≠ tid),
          running := none }
      if s1.queue ≠ [] then startNext now s1 else s1

/-- One atomic step of the runner: a synchronous segment of `enqueue`,
`cancel`, or the post-`await` continuation.  A `cancelled` outcome of the
continuation requires that the abort signal was actually raised. -/
inductive Step : RunnerState → RunnerState → Prop where
  | enqueue (name : String) (durationMs : Int) (now : Nat) {s : RunnerState} :
      Step s (enqueueOp name durationMs now s).2
  | cancel (tid : Nat) (now : Nat) {s : RunnerState} :
      Step s (cancelOp tid now s).2
  | finishCompleted (now : Nat) {s : RunnerState} :
      s.running.isSome → Step s (finishOp true now s)
  | finishCancelled (now : Nat) {s : RunnerState} (tid : Nat) :
      s.running = some tid → tid ∈ s.aborted → Step s (finishOp false now s)

/-- States reachable from a fresh `TaskRunner`. -/
inductive Reachable : RunnerState → Prop where
  | init : Reachable initRunner
  | step {s s' : RunnerState} : Reachable s → Step s s' → Reachable s'

/-! ## Basic lemmas about the state helpers -/

theorem findTask_eq_none {ts : List TaskInfo} {tid : Nat} :
    findTask ts tid = none ↔ ∀ t ∈ ts, t.id ≠ tid := by
  simp [findTask, List.find?_eq_none]

theorem findTask_some {ts : List TaskInfo} {tid : Nat} {t : TaskInfo}
    (h : findTask ts tid = some t) : t ∈ ts ∧ t.id = tid := by
  refine ⟨List.mem_of_find?_eq_some h, ?_⟩
  have := List.find?_some h
  simpa using this

theorem mem_updateTask {ts : List TaskInfo} {tid : Nat} {f : TaskInfo → TaskInfo}
    {t' : TaskInfo} :
    t' ∈ updateTask ts tid f ↔ ∃ t ∈ ts, t' = if t.id = tid then f t else t := by
  simp [updateTask, List.mem_map, eq_comm]

theorem map_id_updateTask {ts : List TaskInfo} {tid : Nat} {f : TaskInfo → TaskInfo}
    (hf : ∀ t, (f t).id = t.id) :
    (updateTask ts tid f).map TaskInfo.id = ts.map TaskInfo.id := by
  simp only [updateTask, List.map_map]
  refine List.map_congr_left (fun t _ => ?_)
  by_cases h : t.id = tid <;> simp [h, hf]

/-- The per-task event trace: statuses of the `onEvent` calls made for
one task id, in emission order. -/
def tidEvents (es : List (Nat × TaskStatus)) (tid : Nat) : List TaskStatus :=
  (es.filter (fun e => e.1 = tid)).map Prod.snd

theorem tidEvents_append {es es' : List (Nat × TaskStatus)} {tid : Nat} :
    tidEvents (es ++ es') tid = tidEvents es tid ++ tidEvents es' tid := by
  simp [tidEvents]

theorem tidEvents_single_self {tid : Nat} {st : TaskStatus} :
    tidEvents [(tid, st)] tid = [st] := by
  simp [tidEvents]

theorem tidEvents_single_ne {i tid : Nat} {st : TaskStatus} (h : i ≠ tid) :
    tidEvents [(i, st)] tid = [] := by
  simp [tidEvents, h]

theorem tidEvents_of_forall_lt {es : List (Nat × TaskStatus)} {n : Nat}
    (h : ∀ e ∈ es, e.1 < n) : tidEvents es n = [] := by
  simp only [tidEvents, List.map_eq_nil_iff, List.filter_eq_nil_iff]
  intro e he
  have := h e he
  simp
  omega

theorem nodup_all_eq_length_le_one {l : List Nat} {a : Nat}
    (hn : l.Nodup) (h : ∀ x ∈ l, x = a) : l.length ≤ 1 := by
  match l with
  | [] => simp
  | x :: xs =>
    have hx : x = a := h x (by simp)
    have : xs = [] := by
      by_contra hne
      match xs, hne with
      | y :: ys, _ =>
        have hy : y = a := h y (by simp)
        have : x ∉ y :: ys := (List.nodup_cons.mp hn).1
        simp [hx, hy] at this
    simp [this]

/-! ## The inductive invariant of the runner -/

/-- The per-task link between current status and the events emitted so
far for that task. -/
def traceOk (es : List (Nat × TaskStatus)) (t : TaskInfo) : Prop :=
  match t.status with
  | .queued => tidEvents es t.id = [.queued]
  | .running => tidEvents es t.id = [.queued, .running]
  | .completed => tidEvents es t.id = [.queued, .running, .completed]
  | .cancelled =>
      tidEvents es t.id = [.queued, .cancelled] ∨
      tidEvents es t.id = [.queued, .running, .cancelled]
  | .failed => False

theorem traceOk_congr {es es' : List (Nat × TaskStatus)} {t : TaskInfo}
    (h : tidEvents es' t.id = tidEvents es t.id) :
    traceOk es t → traceOk es' t := by
  unfold traceOk
  cases t.status <;> simp [h]

/-- The inductive invariant maintained by every atomic step. -/
structure Inv (s : RunnerState) : Prop where
  idsNodup : (s.tasks.map TaskInfo.id).Nodup
  idsLt : ∀ t ∈ s.tasks, t.id < s.nextId
  eventsLt : ∀ e ∈ s.events, e.1 < s.nextId
  queueSub : ∀ i ∈ s.queue, ∃ t ∈ s.tasks, t.id = i ∧ t.status = .queued
  queueNodup : s.queue.Nodup
  runStatus : ∀ t ∈ s.tasks, (t.status = .running ↔ s.running = some t.id)
  runEx : ∀ i, s.running = some i → ∃ t ∈ s.tasks, t.id = i
  trace : ∀ t ∈ s.tasks, traceOk s.events t

theorem inv_init : Inv initRunner := by
  constructor <;> simp [initRunner]

/-- Two tasks of an id-nodup list with the same id are equal. -/
theorem eq_of_id_eq {ts : List TaskInfo} (hn : (ts.map TaskInfo.id).Nodup)
    {t u : TaskInfo} (ht : t ∈ ts) (hu : u ∈ ts)
    (hid : t.id = u.id) : t = u := by
  have := List.inj_on_of_nodup_map hn
  exact this ht hu hid

theorem updateTask_mem_of_mem {ts : List TaskInfo} {tid : Nat}
    {f : TaskInfo → TaskInfo} {t : TaskInfo} (ht : t ∈ ts) :
    (if t.id = tid then f t else t) ∈ updateTask ts tid f :=
  List.mem_map_of_mem _ ht

theorem updateTask_mem_of_ne {ts : List TaskInfo} {tid : Nat}
    {f : TaskInfo → TaskInfo} {t : TaskInfo} (ht : t ∈ ts)
    (hne : t.id ≠ tid) : t ∈ updateTask ts tid f := by
  have := @updateTask_mem_of_mem ts tid f t ht
  simpa [hne] using this

theorem traceOk_iff_of_queued {es : List (Nat × TaskStatus)} {t : TaskInfo}
    (hst : t.status = .queued) :
    traceOk es t ↔ tidEvents es t.id = [.queued] := by
  unfold traceOk; rw [hst]

theorem traceOk_iff_of_running {es : List (Nat × TaskStatus)} {t : TaskInfo}
    (hst : t.status = .running) :
    traceOk es t ↔ tidEvents es t.id = [.queued, .running] := by
  unfold traceOk; rw [hst]

theorem traceOk_iff_of_completed {es : List (Nat × TaskStatus)} {t : TaskInfo}
    (hst : t.status = .completed) :
    traceOk es t ↔ tidEvents es t.id = [.queued, .running, .completed] := by
  unfold traceOk; rw [hst]

theorem traceOk_iff_of_cancelled {es : List (Nat × TaskStatus)} {t : TaskInfo}
    (hst : t.status = .cancelled) :
    traceOk es t ↔
      (tidEvents es t.id = [.queued, .cancelled] ∨
       tidEvents es t.id = [.queued, .running, .cancelled]) := by
  unfold traceOk; rw [hst]

theorem traceOk_iff_of_failed {es : List (Nat × TaskStatus)} {t : TaskInfo}
    (hst : t.status = .failed) : traceOk es t ↔ False := by
  unfold traceOk; rw [hst]

/-! ## Equation lemmas for the operations -/

theorem startNext_of_isSome {s : RunnerState} {now : Nat}
    (hr : s.running.isSome) : startNext now s = s := by
  simp [startNext, hr]

theorem startNext_of_nil {s : RunnerState} {now : Nat}
    (hq : s.queue = []) : startNext now s = s := by
  by_cases hr : s.running.isSome <;> simp [startNext, hr, hq]

theorem startNext_eq_start {s : RunnerState} {now : Nat} {nid : Nat}
    {rest : List Nat} {u : TaskInfo}
    (hrn : s.running = none) (hq : s.queue = nid :: rest)
    (hf : findTask s.tasks nid = some u) :
    startNext now s =
      { s with
        tasks := updateTask s.tasks nid
          (fun t => { t with status := .running, startedAt := some now }),
        queue := rest,
        running := some nid,
        runningState := s.runningState ++ [nid],
        events := s.events ++ [(nid, .running)],
        started := s.started ++ [nid] } := by
  simp [startNext, hrn, hq, hf]

/-! ## Invariant preservation -/

theorem inv_startNext {s : RunnerState} (now : Nat) (h : Inv s) :
    Inv (startNext now s) := by
  by_cases hr : s.running.isSome
  · rw [startNext_of_isSome hr]; exact h
  · have hrn : s.running = none := Option.not_isSome_iff_eq_none.mp hr
    cases hq : s.queue with
    | nil => rw [startNext_of_nil hq]; exact h
    | cons nid rest =>
      obtain ⟨t0, ht0, ht0id, ht0st⟩ :=
        h.queueSub nid (by rw [hq]; exact List.mem_cons_self _ _)
      cases hf : findTask s.tasks nid with
      | none => exact absurd ht0id (findTask_eq_none.mp hf t0 ht0)
      | some u =>
        obtain ⟨hu, huid⟩ := findTask_some hf
        have hust : u.status = .queued := by
          have heq := eq_of_id_eq h.idsNodup hu ht0 (by rw [huid, ht0id])
          rw [heq]; exact ht0st
        have hnidrest : nid ∉ rest := by
          have hnd := h.queueNodup; rw [hq] at hnd
          exact (List.nodup_cons.mp hnd).1
        have hrestnd : rest.Nodup := by
          have hnd := h.queueNodup; rw [hq] at hnd
          exact (List.nodup_cons.mp hnd).2
        rw [startNext_eq_start hrn hq hf]
        refine ⟨?_, ?_, ?_, ?_, ?_, ?_, ?_, ?_⟩ <;> dsimp only
        · rw [@map_id_updateTask s.tasks nid
            (fun t => { t with status := TaskStatus.running, startedAt := some now })
            (fun t => rfl)]
          exact h.idsNodup
        · intro t' ht'
          obtain ⟨t, ht, rfl⟩ := mem_updateTask.mp ht'
          split <;> exact h.idsLt t ht
        · intro e he
          rcases List.mem_append.mp he with h1 | h1
          · exact h.eventsLt e h1
          · have : e = (nid, TaskStatus.running) := by simpa using h1
            rw [this]
            have := h.idsLt u hu
            simpa [huid] using this
        · intro i hi
          have hiq : i ∈ s.queue := by rw [hq]; exact List.mem_cons_of_mem _ hi
          obtain ⟨t, ht, htid, htst⟩ := h.queueSub i hiq
          have hne : t.id ≠ nid := by
            intro hcc
            rw [htid] at hcc
            exact hnidrest (hcc ▸ hi)
          exact ⟨t, updateTask_mem_of_ne ht hne, htid, htst⟩
        · exact hrestnd
        · intro t' ht'
          obtain ⟨t, ht, rfl⟩ := mem_updateTask.mp ht'
          by_cases hc : t.id = nid
          · simp [hc]
          · have h1 : ¬t.status = TaskStatus.running := by
              have := h.runStatus t ht
              rw [hrn] at this
              simp at this
              exact this
            simp only [if_neg hc, Option.some.injEq]
            constructor
            · intro hx; exact absurd hx h1
            · intro hx; exact absurd hx.symm hc
        · intro i hi
          have hieq : i = nid := by
            have : (some nid : Option Nat) = some i := hi
            injection this with hh
            exact hh.symm
          have hmem := @updateTask_mem_of_mem s.tasks nid
            (fun t => { t with status := TaskStatus.running, startedAt := some now }) u hu
          rw [if_pos huid] at hmem
          exact ⟨_, hmem, by rw [hieq]; exact huid⟩
        · intro t' ht'
          obtain ⟨t, ht, rfl⟩ := mem_updateTask.mp ht'
          by_cases hc : t.id = nid
          · have heq : t = u := eq_of_id_eq h.idsNodup ht hu (by rw [hc, huid])
            have hqd : t.status = .queued := by rw [heq]; exact hust
            rw [if_pos hc]
            rw [traceOk_iff_of_running rfl]
            show tidEvents (s.events ++ [(nid, .running)]) t.id = _
            rw [tidEvents_append, hc, tidEvents_single_self,
              ← hc, (traceOk_iff_of_queued hqd).mp (h.trace t ht)]
            rfl
          · rw [if_neg hc]
            refine traceOk_congr ?_ (h.trace t ht)
            rw [tidEvents_append, tidEvents_single_ne (fun hcc => hc hcc.symm),
              List.append_nil]

theorem inv_enqueue {s : RunnerState} (name : String) (durationMs : Int)
    (now : Nat) (h : Inv s) : Inv (enqueueOp name durationMs now s).2 := by
  have hfresh : ∀ t ∈ s.tasks, t.id ≠ s.nextId := by
    intro t ht hcc
    have := h.idsLt t ht
    omega
  have hqfresh : s.nextId ∉ s.queue := by
    intro hq
    obtain ⟨t, ht, htid, _⟩ := h.queueSub _ hq
    exact hfresh t ht htid
  have h1 : Inv
      { s with
        tasks := s.tasks ++
          [{ id := s.nextId, name := name, status := .queued,
             createdAt := now, durationMs := durationMs }],
        queue := s.queue ++ [s.nextId],
        nextId := s.nextId + 1,
        events := s.events ++ [(s.nextId, .queued)] } := by
    refine ⟨?_, ?_, ?_, ?_, ?_, ?_, ?_, ?_⟩ <;> dsimp only
    · rw [List.map_append]
      rw [List.nodup_append]
      refine ⟨h.idsNodup, by simp, ?_⟩
      intro a ha
      simp only [List.map_cons, List.map_nil, List.mem_singleton]
      obtain ⟨t, ht, rfl⟩ := List.mem_map.mp ha
      simpa using hfresh t ht
    · intro t ht
      rcases List.mem_append.mp ht with h1 | h1
      · have := h.idsLt t h1; omega
      · have : t.id = s.nextId := by
          simp only [List.mem_singleton] at h1
          rw [h1]
        omega
    · intro e he
      rcases List.mem_append.mp he with h1 | h1
      · have := h.eventsLt e h1; omega
      · have : e.1 = s.nextId := by
          simp only [List.mem_singleton] at h1
          rw [h1]
        omega
    · intro i hi
      rcases List.mem_append.mp hi with h1 | h1
      · obtain ⟨t, ht, htid, htst⟩ := h.queueSub i h1
        exact ⟨t, List.mem_append_left _ ht, htid, htst⟩
      · simp only [List.mem_singleton] at h1
        refine ⟨_, List.mem_append_right _ (List.mem_singleton_self _), ?_, rfl⟩
        rw [h1]
    · rw [List.nodup_append]
      refine ⟨h.queueNodup, by simp, ?_⟩
      intro a ha
      simp only [List.mem_singleton]
      intro hcc
      rw [hcc] at ha
      exact hqfresh ha
    · intro t ht
      rcases List.mem_append.mp ht with h1 | h1
      · exact h.runStatus t h1
      · simp only [List.mem_singleton] at h1
        rw [h1]
        refine ⟨fun hx => by exact absurd hx (by simp), fun hx => ?_⟩
        obtain ⟨t', ht', htid'⟩ := h.runEx _ hx
        exact absurd htid' (hfresh t' ht')
    · intro i hi
      obtain ⟨t, ht, htid⟩ := h.runEx i hi
      exact ⟨t, List.mem_append_left _ ht, htid⟩
    · intro t ht
      rcases List.mem_append.mp ht with h1 | h1
      · refine traceOk_congr ?_ (h.trace t h1)
        rw [tidEvents_append,
          tidEvents_single_ne (fun hcc => hfresh t h1 hcc.symm),
          List.append_nil]
      · simp only [List.mem_singleton] at h1
        rw [h1]
        rw [traceOk_iff_of_queued rfl]
        show tidEvents (s.events ++ [(s.nextId, .queued)]) s.nextId = _
        rw [tidEvents_append, tidEvents_single_self,
          tidEvents_of_forall_lt h.eventsLt]
        rfl
  exact inv_startNext now h1

theorem cancelOp_of_none {s : RunnerState} {tid now : Nat}
    (hf : findTask s.tasks tid = none) : cancelOp tid now s = (none, s) := by
  simp [cancelOp, hf]

theorem cancelOp_of_queued {s : RunnerState} {tid now : Nat} {task : TaskInfo}
    (hf : findTask s.tasks tid = some task) (hst : task.status = .queued) :
    cancelOp tid now s =
      (some { task with status := .cancelled, endedAt := some now },
        { s with
          tasks := updateTask s.tasks tid
            (fun t => { t with status := .cancelled, endedAt := some now }),
          queue := s.queue.filter (fun i => i ≠ tid),
          events := s.events ++ [(tid, .cancelled)] }) := by
  simp [cancelOp, hf, hst]

theorem cancelOp_of_running {s : RunnerState} {tid now : Nat} {task : TaskInfo}
    (hf : findTask s.tasks tid = some task) (hst : task.status = .running) :
    cancelOp tid now s =
      (some task,
        if tid ∈ s.runningState then
          { s with aborted := if tid ∈ s.aborted then s.aborted else tid :: s.aborted }
        else s) := by
  simp [cancelOp, hf, hst]

theorem cancelOp_of_terminal {s : RunnerState} {tid now : Nat} {task : TaskInfo}
    (hf : findTask s.tasks tid = some task) (h1 : task.status ≠ .queued)
    (h2 : task.status ≠ .running) :
    cancelOp tid now s = (some task, s) := by
  simp [cancelOp, hf, h1, h2]

theorem inv_cancel {s : RunnerState} (tid now : Nat) (h : Inv s) :
    Inv (cancelOp tid now s).2 := by
  cases hf : findTask s.tasks tid with
  | none => rw [cancelOp_of_none hf]; exact h
  | some task =>
    obtain ⟨htask, htid⟩ := findTask_some hf
    by_cases hq : task.status = .queued
    · have hnotrun : s.running ≠ some tid := by
        intro hcc
        have := (h.runStatus task htask).mpr (by rw [htid]; exact hcc)
        rw [hq] at this
        exact absurd this (by simp)
      rw [cancelOp_of_queued hf hq]
      refine ⟨?_, ?_, ?_, ?_, ?_, ?_, ?_, ?_⟩ <;> dsimp only
      · rw [@map_id_updateTask s.tasks tid
          (fun t => { t with status := TaskStatus.cancelled, endedAt := some now })
          (fun t => rfl)]
        exact h.idsNodup
      · intro t' ht'
        obtain ⟨t, ht, rfl⟩ := mem_updateTask.mp ht'
        split <;> exact h.idsLt t ht
      · intro e he
        rcases List.mem_append.mp he with h1 | h1
        · exact h.eventsLt e h1
        · have : e = (tid, TaskStatus.cancelled) := by simpa using h1
          rw [this]
          have := h.idsLt task htask
          simpa [htid] using this
      · intro i hi
        have hi' : i ∈ s.queue ∧ i ≠ tid := by
          have := List.mem_filter.mp hi
          refine ⟨this.1, by simpa using this.2⟩
        obtain ⟨t, ht, htid', htst⟩ := h.queueSub i hi'.1
        exact ⟨t, updateTask_mem_of_ne ht (by rw [htid']; exact hi'.2), htid', htst⟩
      · exact h.queueNodup.filter _
      · intro t' ht'
        obtain ⟨t, ht, rfl⟩ := mem_updateTask.mp ht'
        by_cases hc : t.id = tid
        · simp only [if_pos hc]
          refine ⟨fun hx => absurd hx (by simp), fun hx => ?_⟩
          rw [show ({ t with status := TaskStatus.cancelled, endedAt := some now } : TaskInfo).id
            = t.id from rfl, hc] at hx
          exact absurd hx hnotrun
        · simp only [if_neg hc]
          exact h.runStatus t ht
      · intro i hi
        obtain ⟨t, ht, htid'⟩ := h.runEx i hi
        have hne : t.id ≠ tid := by
          intro hcc
          rw [htid'] at hcc
          rw [hcc] at hi
          exact hnotrun hi
        exact ⟨t, updateTask_mem_of_ne ht hne, htid'⟩
      · intro t' ht'
        obtain ⟨t, ht, rfl⟩ := mem_updateTask.mp ht'
        by_cases hc : t.id = tid
        · have heq : t = task := eq_of_id_eq h.idsNodup ht htask (by rw [hc, htid])
          have hqd : t.status = .queued := by rw [heq]; exact hq
          rw [if_pos hc]
          rw [traceOk_iff_of_cancelled rfl]
          left
          show tidEvents (s.events ++ [(tid, .cancelled)]) t.id = _
          rw [tidEvents_append, hc, tidEvents_single_self,
            ← hc, (traceOk_iff_of_queued hqd).mp (h.trace t ht)]
          rfl
        · rw [if_neg hc]
          refine traceOk_congr ?_ (h.trace t ht)
          rw [tidEvents_append, tidEvents_single_ne (fun hcc => hc hcc.symm),
            List.append_nil]
    · by_cases hr : task.status = .running
      · rw [cancelOp_of_running hf hr]
        dsimp only
        split
        · exact ⟨h.idsNodup, h.idsLt, h.eventsLt, h.queueSub, h.queueNodup,
            h.runStatus, h.runEx, h.trace⟩
        · exact h
      · rw [cancelOp_of_terminal hf hq hr]
        exact h

theorem finishOp_of_none {s : RunnerState} {b : Bool} {now : Nat}
    (hr : s.running = none) : finishOp b now s = s := by
  simp [finishOp, hr]

theorem finishOp_eq {s : RunnerState} {b : Bool} {now tid : Nat} {u : TaskInfo}
    (hr : s.running = some tid) (hf : findTask s.tasks tid = some u) :
    finishOp b now s =
      (if s.queue ≠ [] then
        startNext now
          { s with
            tasks := updateTask s.tasks tid
              (if b then
                 fun t => { t with status := .completed, result := some "ok", endedAt := some now }
               else
                 fun t => { t with status := .cancelled, error := some "cancelled", endedAt := some now }),
            events := s.events ++ [(tid, if b then .completed else .cancelled)],
            runningState := s.runningState.filter (fun i => i ≠ tid),
            running := none }
       else
        { s with
          tasks := updateTask s.tasks tid
            (if b then
               fun t => { t with status := .completed, result := some "ok", endedAt := some now }
             else
               fun t => { t with status := .cancelled, error := some "cancelled", endedAt := some now }),
          events := s.events ++ [(tid, if b then .completed else .cancelled)],
          runningState := s.runningState.filter (fun i => i ≠ tid),
          running := none }) := by
  cases b <;> simp [finishOp, hr, hf]

theorem inv_finish_core {s : RunnerState} {tid : Nat} {u : TaskInfo}
    (h : Inv s) (hr : s.running = some tid)
    (hfind : findTask s.tasks tid = some u)
    (st : TaskStatus) (hterm : st = .completed ∨ st = .cancelled)
    (g : TaskInfo → TaskInfo) (hg_id : ∀ t, (g t).id = t.id)
    (hg_st : ∀ t, (g t).status = st) :
    Inv { s with
          tasks := updateTask s.tasks tid g,
          events := s.events ++ [(tid, st)],
          runningState := s.runningState.filter (fun i => i ≠ tid),
          running := none } := by
  obtain ⟨hu, huid⟩ := findTask_some hfind
  have hurun : u.status = .running := (h.runStatus u hu).mpr (by rw [huid]; exact hr)
  have htidq : tid ∉ s.queue := by
    intro hq
    obtain ⟨t, ht, htid, htst⟩ := h.queueSub tid hq
    have heq : t = u := eq_of_id_eq h.idsNodup ht hu (by rw [htid, huid])
    rw [heq, hurun] at htst
    exact absurd htst (by simp)
  have hstrun : st ≠ .running := by
    rcases hterm with h1 | h1 <;> rw [h1] <;> simp
  refine ⟨?_, ?_, ?_, ?_, ?_, ?_, ?_, ?_⟩ <;> dsimp only
  · rw [@map_id_updateTask s.tasks tid g hg_id]
    exact h.idsNodup
  · intro t' ht'
    obtain ⟨t, ht, rfl⟩ := mem_updateTask.mp ht'
    by_cases hc : t.id = tid
    · rw [if_pos hc, hg_id]
      exact h.idsLt t ht
    · rw [if_neg hc]
      exact h.idsLt t ht
  · intro e he
    rcases List.mem_append.mp he with h1 | h1
    · exact h.eventsLt e h1
    · have : e = (tid, st) := by simpa using h1
      rw [this]
      have := h.idsLt u hu
      simpa [huid] using this
  · intro i hi
    obtain ⟨t, ht, htid, htst⟩ := h.queueSub i hi
    have hne : t.id ≠ tid := by
      intro hcc
      rw [htid] at hcc
      rw [hcc] at hi
      exact htidq hi
    exact ⟨t, updateTask_mem_of_ne ht hne, htid, htst⟩
  · exact h.queueNodup
  · intro t' ht'
    obtain ⟨t, ht, rfl⟩ := mem_updateTask.mp ht'
    by_cases hc : t.id = tid
    · rw [if_pos hc]
      refine ⟨fun hx => ?_, fun hx => by exact absurd hx (by simp)⟩
      rw [hg_st t] at hx
      exact absurd hx hstrun
    · rw [if_neg hc]
      refine ⟨fun hx => ?_, fun hx => by exact absurd hx (by simp)⟩
      have := (h.runStatus t ht).mp hx
      rw [hr] at this
      have htideq : tid = t.id := by injection this
      exact absurd htideq.symm hc
  · intro i hi
    exact absurd hi (by simp)
  · intro t' ht'
    obtain ⟨t, ht, rfl⟩ := mem_updateTask.mp ht'
    by_cases hc : t.id = tid
    · have heq : t = u := eq_of_id_eq h.idsNodup ht hu (by rw [hc, huid])
      have hrd : t.status = .running := by rw [heq]; exact hurun
      have hprev : tidEvents s.events t.id = [.queued, .running] :=
        (traceOk_iff_of_running hrd).mp (h.trace t ht)
      rw [if_pos hc]
      rcases hterm with h1 | h1
      · rw [h1] at hg_st ⊢
        rw [traceOk_iff_of_completed (hg_st t)]
        show tidEvents (s.events ++ [(tid, .completed)]) (g t).id = _
        rw [hg_id, tidEvents_append, hc, tidEvents_single_self, ← hc, hprev]
        rfl
      · rw [h1] at hg_st ⊢
        rw [traceOk_iff_of_cancelled (hg_st t)]
        right
        show tidEvents (s.events ++ [(tid, .cancelled)]) (g t).id = _
        rw [hg_id, tidEvents_append, hc, tidEvents_single_self, ← hc, hprev]
        rfl
    · rw [if_neg hc]
      refine traceOk_congr ?_ (h.trace t ht)
      rw [tidEvents_append, tidEvents_single_ne (fun hcc => hc hcc.symm),
        List.append_nil]

theorem inv_finish {s : RunnerState} (b : Bool) (now : Nat) (h : Inv s) :
    Inv (finishOp b now s) := by
  cases hr : s.running with
  | none => rw [finishOp_of_none hr]; exact h
  | some tid =>
    cases hfind : findTask s.tasks tid with
    | none =>
      obtain ⟨t, ht, htid⟩ := h.runEx tid hr
      exact absurd htid (findTask_eq_none.mp hfind t ht)
    | some u =>
      have hcore := inv_finish_core h hr hfind
        (if b then .completed else .cancelled)
        (by cases b <;> simp)
        (if b then
           fun t => { t with status := .completed, result := some "ok", endedAt := some now }
         else
           fun t => { t with status := .cancelled, error := some "cancelled", endedAt := some now })
        (by cases b <;> intro t <;> rfl)
        (by cases b <;> intro t <;> rfl)
      rw [finishOp_eq hr hfind]
      split
      · exact inv_startNext now hcore
      · exact hcore

/-- Every reachable state of the task runner satisfies the invariant. -/
theorem inv_reachable {s : RunnerState} (h : Reachable s) : Inv s := by
  induction h with
  | init => exact inv_init
  | step _ hs ih =>
    cases hs with
    | enqueue name durationMs now => exact inv_enqueue name durationMs now ih
    | cancel tid now => exact inv_cancel tid now ih
    | finishCompleted now _ => exact inv_finish true now ih
    | finishCancelled now tid _ _ => exact inv_finish false now ih

/-! ## Concrete reachable states used by the witnesses -/

/-- One `enqueue` on a fresh runner: the task starts running immediately. -/
def demoState1 : RunnerState := (enqueueOp "a" 50 0 initRunner).2

/-- A second `enqueue` while the first task is running: it stays queued. -/
def demoState2 : RunnerState := (enqueueOp "b" 60 1 demoState1).2

theorem demoState1_reachable : Reachable demoState1 :=
  Reachable.step Reachable.init (Step.enqueue "a" 50 0)

theorem demoState2_reachable : Reachable demoState2 :=
  Reachable.step demoState1_reachable (Step.enqueue "b" 60 1)

/-! ## Claim C1: at most one running task per session runner -/

/-- C1.  In every reachable state of a session's task runner, at most one
task is in `running` status: the executor (`runNext`) starts a task only
when the running slot is free, and no interleaving of `enqueue`, `cancel`
and completion steps ever produces two simultaneously `running` tasks. -/
theorem C1_at_most_one_running (s : RunnerState) (h : Reachable s) :
    (s.tasks.filter (fun t => t.status = TaskStatus.running)).length ≤ 1 := by
  have hi := inv_reachable h
  cases hr : s.running with
  | none =>
    have hnil : s.tasks.filter (fun t => t.status = TaskStatus.running) = [] := by
      rw [List.filter_eq_nil_iff]
      intro t ht
      simp only [decide_eq_true_eq]
      intro hx
      have := (hi.runStatus t ht).mp hx
      rw [hr] at this
      exact absurd this (by simp)
    rw [hnil]
    simp
  | some i =>
    have hsub : (s.tasks.filter (fun t => t.status = TaskStatus.running)).Sublist s.tasks :=
      List.filter_sublist _
    have hnd : ((s.tasks.filter (fun t => t.status = TaskStatus.running)).map
        TaskInfo.id).Nodup :=
      (hsub.map TaskInfo.id).nodup hi.idsNodup
    have hall : ∀ x ∈ (s.tasks.filter (fun t => t.status = TaskStatus.running)).map
        TaskInfo.id, x = i := by
      intro x hx
      obtain ⟨t, ht, rfl⟩ := List.mem_map.mp hx
      have htm := List.mem_filter.mp ht
      have := (hi.runStatus t htm.1).mp (by simpa using htm.2)
      rw [hr] at this
      have hh : i = t.id := by injection this
      exact hh.symm
    have := nodup_all_eq_length_le_one hnd hall
    simpa using this

/-- Witness for C1 at a concrete reachable state (two enqueues). -/
theorem C1_at_most_one_running_witness :
    (demoState2.tasks.filter (fun t => t.status = TaskStatus.running)).length ≤ 1 :=
  C1_at_most_one_running demoState2 demoState2_reachable

/-! ## Claim C9: the `failed` status is unreachable -/

/-- The statuses an operation may append to the event log. -/
def goodTail (es : List (Nat × TaskStatus)) : Prop :=
  ∀ e ∈ es, e.2 ≠ TaskStatus.failed

theorem startNext_events (now : Nat) (s : RunnerState) :
    ∃ es, (startNext now s).events = s.events ++ es ∧ goodTail es := by
  by_cases hr : s.running.isSome
  · exact ⟨[], by rw [startNext_of_isSome hr]; simp, by simp [goodTail]⟩
  · have hrn : s.running = none := Option.not_isSome_iff_eq_none.mp hr
    cases hq : s.queue with
    | nil => exact ⟨[], by rw [startNext_of_nil hq]; simp, by simp [goodTail]⟩
    | cons nid rest =>
      cases hf : findTask s.tasks nid with
      | none =>
        refine ⟨[], ?_, by simp [goodTail]⟩
        simp [startNext, hrn, hq, hf]
      | some u =>
        refine ⟨[(nid, .running)], ?_, by simp [goodTail]⟩
        rw [startNext_eq_start hrn hq hf]

theorem enqueueOp_events (name : String) (durationMs : Int) (now : Nat)
    (s : RunnerState) :
    ∃ es, (enqueueOp name durationMs now s).2.events = s.events ++ es ∧
      goodTail es := by
  obtain ⟨es, heq, hgood⟩ := startNext_events now
    { s with
      tasks := s.tasks ++
        [{ id := s.nextId, name := name, status := .queued,
           createdAt := now, durationMs := durationMs }],
      queue := s.queue ++ [s.nextId],
      nextId := s.nextId + 1,
      events := s.events ++ [(s.nextId, .queued)] }
  refine ⟨[(s.nextId, .queued)] ++ es, ?_, ?_⟩
  · show (startNext now _).events = _
    rw [heq]
    simp
  · intro e he
    rcases List.mem_append.mp he with h1 | h1
    · have : e = (s.nextId, TaskStatus.queued) := by simpa using h1
      rw [this]
      simp
    · exact hgood e h1

theorem cancelOp_events (tid now : Nat) (s : RunnerState) :
    ∃ es, (cancelOp tid now s).2.events = s.events ++ es ∧ goodTail es := by
  cases hf : findTask s.tasks tid with
  | none => exact ⟨[], by rw [cancelOp_of_none hf]; simp, by simp [goodTail]⟩
  | some task =>
    by_cases hq : task.status = .queued
    · refine ⟨[(tid, .cancelled)], ?_, by simp [goodTail]⟩
      rw [cancelOp_of_queued hf hq]
    · by_cases hr : task.status = .running
      · refine ⟨[], ?_, by simp [goodTail]⟩
        rw [cancelOp_of_running hf hr]
        dsimp only
        split <;> simp
      · exact ⟨[], by rw [cancelOp_of_terminal hf hq hr]; simp, by simp [goodTail]⟩

theorem finishOp_events (b : Bool) (now : Nat) (s : RunnerState) :
    ∃ es, (finishOp b now s).events = s.events ++ es ∧ goodTail es := by
  cases hr : s.running with
  | none => exact ⟨[], by rw [finishOp_of_none hr]; simp, by simp [goodTail]⟩
  | some tid =>
    cases hf : findTask s.tasks tid with
    | none =>
      refine ⟨[], ?_, by simp [goodTail]⟩
      simp [finishOp, hr, hf]
    | some u =>
      rw [finishOp_eq hr hf]
      set ev : TaskStatus := if b then .completed else .cancelled with hev
      have hevgood : ev ≠ TaskStatus.failed := by
        rw [hev]; cases b <;> simp
      split
      · obtain ⟨es, heq, hgood⟩ := startNext_events now
          { s with
            tasks := updateTask s.tasks tid
              (if b then
                 fun t => { t with status := .completed, result := some "ok", endedAt := some now }
               else
                 fun t => { t with status := .cancelled, error := some "cancelled", endedAt := some now }),
            events := s.events ++ [(tid, ev)],
            runningState := s.runningState.filter (fun i => i ≠ tid),
            running := none }
        refine ⟨[(tid, ev)] ++ es, ?_, ?_⟩
        · rw [heq]
          simp
        · intro e he
          rcases List.mem_append.mp he with h1 | h1
          · have : e = (tid, ev) := by simpa using h1
            rw [this]
            exact hevgood
          · exact hgood e h1
      · refine ⟨[(tid, ev)], rfl, ?_⟩
        intro e he
        have : e = (tid, ev) := by simpa using he
        rw [this]
        exact hevgood

theorem reachable_events_no_failed {s : RunnerState} (h : Reachable s) :
    ∀ e ∈ s.events, e.2 ≠ TaskStatus.failed := by
  induction h with
  | init => simp [initRunner]
  | step _ hs ih =>
    cases hs with
    | enqueue name durationMs now =>
      obtain ⟨es, heq, hgood⟩ := enqueueOp_events name durationMs now _
      rw [heq]
      intro e he
      rcases List.mem_append.mp he with h1 | h1
      · exact ih e h1
      · exact hgood e h1
    | cancel tid now =>
      obtain ⟨es, heq, hgood⟩ := cancelOp_events tid now _
      rw [heq]
      intro e he
      rcases List.mem_append.mp he with h1 | h1
      · exact ih e h1
      · exact hgood e h1
    | finishCompleted now _ =>
      obtain ⟨es, heq, hgood⟩ := finishOp_events true now _
      rw [heq]
      intro e he
      rcases List.mem_append.mp he with h1 | h1
      · exact ih e h1
      · exact hgood e h1
    | finishCancelled now tid _ _ =>
      obtain ⟨es, heq, hgood⟩ := finishOp_events false now _
      rw [heq]
      intro e he
      rcases List.mem_append.mp he with h1 | h1
      · exact ih e h1
      · exact hgood e h1

/-- C9.  No task of a reachable runner state ever has status `failed`, and
no `failed` event is ever emitted: the unit of work is a timer with an
attached abort signal, which can only end in `completed` or `cancelled`,
so the `running → failed` transition of the state machine and the `failed`
terminal event are unreachable in this implementation. -/
theorem C9_failed_unreachable (s : RunnerState) (h : Reachable s) :
    (∀ t ∈ s.tasks, t.status ≠ TaskStatus.failed) ∧
    (∀ e ∈ s.events, e.2 ≠ TaskStatus.failed) := by
  have hi := inv_reachable h
  constructor
  · intro t ht hx
    have := hi.trace t ht
    rw [traceOk_iff_of_failed hx] at this
    exact this
  · exact reachable_events_no_failed h

/-- Witness for C9 at a concrete reachable state. -/
theorem C9_failed_unreachable_witness :
    (∀ t ∈ demoState2.tasks, t.status ≠ TaskStatus.failed) ∧
    (∀ e ∈ demoState2.events, e.2 ≠ TaskStatus.failed) :=
  C9_failed_unreachable demoState2 demoState2_reachable

/-! ## Claim C3: strict per-task event lifecycle -/

/-- C3.  In every reachable state, the events emitted for a task form
exactly one of: `[queued]`, `[queued, running]`,
`[queued, running, completed]`, `[queued, cancelled]` (cancelled while
queued, no `running` event), or `[queued, running, cancelled]` — each
determined by the task's current status.  In particular every task's
trace starts with one `queued` event, contains at most one `running`
event, ends with at most one terminal event (exactly one once the task is
in a terminal status), and never contains a second terminal event. -/
theorem C3_event_lifecycle (s : RunnerState) (h : Reachable s) :
    ∀ t ∈ s.tasks,
      (t.status = .queued ∧ tidEvents s.events t.id = [.queued]) ∨
      (t.status = .running ∧ tidEvents s.events t.id = [.queued, .running]) ∨
      (t.status = .completed ∧
        tidEvents s.events t.id = [.queued, .running, .completed]) ∨
      (t.status = .cancelled ∧
        (tidEvents s.events t.id = [.queued, .cancelled] ∨
         tidEvents s.events t.id = [.queued, .running, .cancelled])) := by
  intro t ht
  have htr := (inv_reachable h).trace t ht
  cases hst : t.status with
  | queued => exact Or.inl ⟨rfl, (traceOk_iff_of_queued hst).mp htr⟩
  | running => exact Or.inr (Or.inl ⟨rfl, (traceOk_iff_of_running hst).mp htr⟩)
  | completed =>
    exact Or.inr (Or.inr (Or.inl ⟨rfl, (traceOk_iff_of_completed hst).mp htr⟩))
  | cancelled =>
    exact Or.inr (Or.inr (Or.inr ⟨rfl, (traceOk_iff_of_cancelled hst).mp htr⟩))
  | failed => exact ((traceOk_iff_of_failed hst).mp htr).elim

/-- The first task of `demoState2` (already started). -/
def demoTask0 : TaskInfo :=
  { id := 0, name := "a", status := .running, createdAt := 0,
    durationMs := 50, startedAt := some 0 }

/-- Witness for C3 at a concrete reachable state and task. -/
theorem C3_event_lifecycle_witness :
    (demoTask0.status = .queued ∧
      tidEvents demoState2.events demoTask0.id = [.queued]) ∨
    (demoTask0.status = .running ∧
      tidEvents demoState2.events demoTask0.id = [.queued, .running]) ∨
    (demoTask0.status = .completed ∧
      tidEvents demoState2.events demoTask0.id = [.queued, .running, .completed]) ∨
    (demoTask0.status = .cancelled ∧
      (tidEvents demoState2.events demoTask0.id = [.queued, .cancelled] ∨
       tidEvents demoState2.events demoTask0.id = [.queued, .running, .cancelled])) :=
  C3_event_lifecycle demoState2 demoState2_reachable demoTask0 (by decide)

/-! ## Claim C2: FIFO start order (no cancellation of queued tasks) -/

/-- Steps that never cancel a queued task: `cancel` is only allowed when
the target is absent, running, or already terminal. -/
inductive StepNC : RunnerState → RunnerState → Prop where
  | enqueue (name : String) (durationMs : Int) (now : Nat) {s : RunnerState} :
      StepNC s (enqueueOp name durationMs now s).2
  | cancel (tid : Nat) (now : Nat) {s : RunnerState}
      (h : ∀ t, findTask s.tasks tid = some t → t.status ≠ .queued) :
      StepNC s (cancelOp tid now s).2
  | finishCompleted (now : Nat) {s : RunnerState} :
      s.running.isSome → StepNC s (finishOp true now s)
  | finishCancelled (now : Nat) {s : RunnerState} (tid : Nat) :
      s.running = some tid → tid ∈ s.aborted → StepNC s (finishOp false now s)

inductive ReachableNC : RunnerState → Prop where
  | init : ReachableNC initRunner
  | step {s s' : RunnerState} : ReachableNC s → StepNC s s' → ReachableNC s'

theorem stepNC_step {s s' : RunnerState} (h : StepNC s s') : Step s s' := by
  cases h with
  | enqueue name durationMs now => exact Step.enqueue name durationMs now
  | cancel tid now _ => exact Step.cancel tid now
  | finishCompleted now h1 => exact Step.finishCompleted now h1
  | finishCancelled now tid h1 h2 => exact Step.finishCancelled now tid h1 h2

theorem reachableNC_reachable {s : RunnerState} (h : ReachableNC s) :
    Reachable s := by
  induction h with
  | init => exact Reachable.init
  | step _ hs ih => exact Reachable.step ih (stepNC_step hs)

/-- The FIFO bookkeeping identity: the ids already started, followed by
the ids still queued, are exactly the ids in enqueue order (`tasks` is
insertion-ordered). -/
def startOrder (s : RunnerState) : Prop :=
  s.started ++ s.queue = s.tasks.map TaskInfo.id

theorem startOrder_startNext {s : RunnerState} (now : Nat)
    (hcov : ∀ i ∈ s.queue, ∃ t ∈ s.tasks, t.id = i)
    (ho : startOrder s) : startOrder (startNext now s) := by
  by_cases hr : s.running.isSome
  · rw [startNext_of_isSome hr]; exact ho
  · have hrn : s.running = none := Option.not_isSome_iff_eq_none.mp hr
    cases hq : s.queue with
    | nil => rw [startNext_of_nil hq]; exact ho
    | cons nid rest =>
      obtain ⟨t0, ht0, ht0id⟩ := hcov nid (by rw [hq]; exact List.mem_cons_self _ _)
      cases hf : findTask s.tasks nid with
      | none => exact absurd ht0id (findTask_eq_none.mp hf t0 ht0)
      | some u =>
        rw [startNext_eq_start hrn hq hf]
        show (s.started ++ [nid]) ++ rest = _
        rw [@map_id_updateTask s.tasks nid
          (fun t => { t with status := TaskStatus.running, startedAt := some now })
          (fun t => rfl)]
        rw [List.append_assoc, ← ho, hq]
        rfl

theorem startOrder_stepNC {s s' : RunnerState} (hinv : Inv s)
    (hs : StepNC s s') (ih : startOrder s) : startOrder s' := by
  have hcov : ∀ i ∈ s.queue, ∃ t ∈ s.tasks, TaskInfo.id t = i := fun i hi =>
    (hinv.queueSub i hi).imp (fun t ⟨ht, htid, _⟩ => ⟨ht, htid⟩)
  cases hs with
    | enqueue name durationMs now =>
      refine startOrder_startNext now ?_ ?_
      · intro i hi
        rcases List.mem_append.mp hi with h1 | h1
        · obtain ⟨t, ht, htid⟩ := hcov i h1
          exact ⟨t, List.mem_append_left _ ht, htid⟩
        · simp only [List.mem_singleton] at h1
          exact ⟨_, List.mem_append_right _ (List.mem_singleton_self _), h1.symm⟩
      · show (s.started) ++ (s.queue ++ [s.nextId]) = _
        rw [List.map_append, ← List.append_assoc, ih]
        rfl
    | cancel tid now hnq =>
      cases hf : findTask s.tasks tid with
      | none => rw [cancelOp_of_none hf]; exact ih
      | some task =>
        have hq := hnq task hf
        by_cases hr : task.status = .running
        · rw [cancelOp_of_running hf hr]
          dsimp only
          split
          · exact ih
          · exact ih
        · rw [cancelOp_of_terminal hf hq hr]
          exact ih
    | finishCompleted now h1 =>
      obtain ⟨tid, hr⟩ := Option.isSome_iff_exists.mp h1
      cases hf : findTask s.tasks tid with
      | none =>
        obtain ⟨t, ht, htid⟩ := hinv.runEx tid hr
        exact absurd htid (findTask_eq_none.mp hf t ht)
      | some u =>
        rw [finishOp_eq hr hf]
        have ho1 : startOrder
            { s with
              tasks := updateTask s.tasks tid
                (if true then
                   fun t => { t with status := .completed, result := some "ok", endedAt := some now }
                 else
                   fun t => { t with status := .cancelled, error := some "cancelled", endedAt := some now }),
              events := s.events ++ [(tid, if true then .completed else .cancelled)],
              runningState := s.runningState.filter (fun i => i ≠ tid),
              running := none } := by
          show s.started ++ s.queue = _
          dsimp only
          rw [if_pos rfl, @map_id_updateTask s.tasks tid
            (fun t => { t with status := TaskStatus.completed, result := some "ok", endedAt := some now })
            (fun t => rfl)]
          exact ih
        split
        · refine startOrder_startNext now ?_ ho1
          intro i hi
          obtain ⟨t, ht, htid⟩ := hcov i hi
          have hmem := @updateTask_mem_of_mem s.tasks tid
            (if true then
               fun t => { t with status := TaskStatus.completed, result := some "ok", endedAt := some now }
             else
               fun t => { t with status := TaskStatus.cancelled, error := some "cancelled", endedAt := some now }) t ht
          refine ⟨_, hmem, ?_⟩
          split <;> exact htid
        · exact ho1
    | finishCancelled now tid hr _ =>
      cases hf : findTask s.tasks tid with
      | none =>
        obtain ⟨t, ht, htid⟩ := hinv.runEx tid hr
        exact absurd htid (findTask_eq_none.mp hf t ht)
      | some u =>
        rw [finishOp_eq hr hf]
        have ho1 : startOrder
            { s with
              tasks := updateTask s.tasks tid
                (if false then
                   fun t => { t with status := .completed, result := some "ok", endedAt := some now }
                 else
                   fun t => { t with status := .cancelled, error := some "cancelled", endedAt := some now }),
              events := s.events ++ [(tid, if false then .completed else .cancelled)],
              runningState := s.runningState.filter (fun i => i ≠ tid),
              running := none } := by
          show s.started ++ s.queue = _
          dsimp only
          rw [if_neg (by simp), @map_id_updateTask s.tasks tid
            (fun t => { t with status := TaskStatus.cancelled, error := some "cancelled", endedAt := some now })
            (fun t => rfl)]
          exact ih
        split
        · refine startOrder_startNext now ?_ ho1
          intro i hi
          obtain ⟨t, ht, htid⟩ := hcov i hi
          have hmem := @updateTask_mem_of_mem s.tasks tid
            (if false then
               fun t => { t with status := TaskStatus.completed, result := some "ok", endedAt := some now }
             else
               fun t => { t with status := TaskStatus.cancelled, error := some "cancelled", endedAt := some now }) t ht
          refine ⟨_, hmem, ?_⟩
          split <;> exact htid
        · exact ho1

theorem startOrder_nc {s : RunnerState} (h : ReachableNC s) : startOrder s := by
  induction h with
  | init => rfl
  | step hprev hs ih =>
    exact startOrder_stepNC (inv_reachable (reachableNC_reachable hprev)) hs ih

/-- C2.  Within one session, tasks begin execution in enqueue order: in
every state reachable without cancelling a queued task, the ids already
started (in start order), followed by the ids still queued (in queue
order), are exactly the task ids in enqueue order (`tasks` is
insertion-ordered, `enqueue` appends to the tail, `runNext` pops the
head).  Hence the i-th task to transition to `running` is the i-th task
enqueued. -/
theorem C2_fifo_order (s : RunnerState) (h : ReachableNC s) :
    s.started ++ s.queue = s.tasks.map TaskInfo.id :=
  startOrder_nc h

/-- Witness for C2 at a concrete reachable state (two enqueues, then the
first task completes, starting the second). -/
theorem C2_fifo_order_witness :
    (finishOp true 70 demoState2).started ++ (finishOp true 70 demoState2).queue =
      (finishOp true 70 demoState2).tasks.map TaskInfo.id :=
  C2_fifo_order _
    (ReachableNC.step
      (ReachableNC.step
        (ReachableNC.step ReachableNC.init (StepNC.enqueue "a" 50 0))
        (StepNC.enqueue "b" 60 1))
      (StepNC.finishCompleted 70 (by decide)))

/-! ## Claim C4: `cancel` is idempotent -/

theorem findTask_updateTask {ts : List TaskInfo} {tid : Nat}
    {f : TaskInfo → TaskInfo} (hf : ∀ t, (f t).id = t.id) :
    findTask (updateTask ts tid f) tid =
      Option.map (fun t => if t.id = tid then f t else t) (findTask ts tid) := by
  induction ts with
  | nil => rfl
  | cons a ts ih =>
    show findTask ((if a.id = tid then f a else a) :: updateTask ts tid f) tid = _
    by_cases ha : a.id = tid
    · have h1 : (f a).id = tid := by rw [hf]; exact ha
      rw [if_pos ha]
      unfold findTask
      rw [List.find?_cons_of_pos _ (by simpa using h1),
        List.find?_cons_of_pos _ (by simpa using ha)]
      simp [if_pos ha]
    · rw [if_neg ha]
      unfold findTask
      rw [List.find?_cons_of_neg _ (by simpa using ha),
        List.find?_cons_of_neg _ (by simpa using ha)]
      exact ih

/-- C4.  `cancel` is idempotent: after one `cancel(id)`, a second
`cancel(id)` leaves the runner state unchanged (in particular it emits no
second `cancelled` event) and returns exactly the task in its
then-current state (or `undefined` for an unknown id); and `cancel` on a
task already in a terminal status returns the task unchanged without
touching the state — it is not an error. -/
theorem C4_cancel_idempotent (s : RunnerState) (tid now now' : Nat) :
    (cancelOp tid now' (cancelOp tid now s).2).2 = (cancelOp tid now s).2 ∧
    (cancelOp tid now' (cancelOp tid now s).2).1 =
      findTask (cancelOp tid now s).2.tasks tid ∧
    (cancelOp tid now' (cancelOp tid now s).2).2.events =
      (cancelOp tid now s).2.events ∧
    (∀ t, findTask s.tasks tid = some t →
      (t.status = .completed ∨ t.status = .failed ∨ t.status = .cancelled) →
      cancelOp tid now s = (some t, s)) := by
  have hmain : (cancelOp tid now' (cancelOp tid now s).2).2 = (cancelOp tid now s).2 ∧
      (cancelOp tid now' (cancelOp tid now s).2).1 =
        findTask (cancelOp tid now s).2.tasks tid := by
    cases hf : findTask s.tasks tid with
    | none =>
      rw [cancelOp_of_none hf]
      dsimp only
      rw [cancelOp_of_none hf]
      exact ⟨rfl, hf.symm⟩
    | some task =>
      have htid := (findTask_some hf).2
      by_cases hq : task.status = .queued
      · rw [cancelOp_of_queued hf hq]
        dsimp only
        have hfind1 : findTask
            (updateTask s.tasks tid
              (fun t => { t with status := .cancelled, endedAt := some now })) tid =
            some { task with status := .cancelled, endedAt := some now } := by
          rw [@findTask_updateTask s.tasks tid
            (fun t => { t with status := TaskStatus.cancelled, endedAt := some now })
            (fun t => rfl), hf]
          simp [htid]
        rw [cancelOp_of_terminal hfind1 (by simp) (by simp)]
        exact ⟨rfl, hfind1.symm⟩
      · by_cases hr2 : task.status = .running
        · rw [cancelOp_of_running hf hr2]
          dsimp only
          by_cases hrs : tid ∈ s.runningState
          · rw [if_pos hrs]
            have hf1 : findTask
                ({ s with aborted := if tid ∈ s.aborted then s.aborted
                    else tid :: s.aborted } : RunnerState).tasks tid = some task := hf
            rw [cancelOp_of_running hf1 hr2]
            dsimp only
            rw [if_pos (show tid ∈ s.runningState from hrs)]
            have hab : tid ∈ (if tid ∈ s.aborted then s.aborted
                else tid :: s.aborted) := by
              split
              · assumption
              · exact List.mem_cons_self _ _
            rw [if_pos hab]
            exact ⟨rfl, hf1.symm⟩
          · rw [if_neg hrs]
            rw [cancelOp_of_running hf hr2]
            dsimp only
            rw [if_neg hrs]
            exact ⟨rfl, hf.symm⟩
        · rw [cancelOp_of_terminal hf hq hr2]
          dsimp only
          rw [cancelOp_of_terminal hf hq hr2]
          exact ⟨rfl, hf.symm⟩
  refine ⟨hmain.1, hmain.2, by rw [hmain.1], ?_⟩
  intro t hft hterm
  refine cancelOp_of_terminal hft ?_ ?_
  · rcases hterm with h | h | h <;> rw [h] <;> simp
  · rcases hterm with h | h | h <;> rw [h] <;> simp

/-- Witness for C4: cancel the queued task of `demoState2`, then apply
the theorem at the resulting state (the task is now terminal). -/
theorem C4_cancel_idempotent_witness :
    cancelOp 1 9 (cancelOp 1 5 demoState2).2 =
      (some { id := 1, name := "b", status := .cancelled, createdAt := 1,
              durationMs := 60, startedAt := none, endedAt := some 5,
              result := none, error := none },
       (cancelOp 1 5 demoState2).2) :=
  (C4_cancel_idempotent (cancelOp 1 5 demoState2).2 1 9 7).2.2.2 _
    (by decide) (by decide)

/-! ## The wire protocol (`protocol.ts`)

Messages are JSON values; `JSON.parse` / `JSON.stringify` are modelled at
the level of structured JSON values (an unparseable line is `none`). -/

inductive Json where
  | null
  | bool (b : Bool)
  | num (n : Int)
  | str (s : String)
  | arr (xs : List Json)
  | obj (fields : List (String × Json))
deriving Repr

/-- JS object property lookup. -/
def lookupField (fields : List (String × Json)) (key : String) : Option Json :=
  (fields.find? (fun f => f.1 = key)).map Prod.snd

/-- The type names zod reports in `invalid_type` issues. -/
def typeName : Json → String
  | .null => "null"
  | .bool _ => "boolean"
  | .num _ => "number"
  | .str _ => "string"
  | .arr _ => "array"
  | .obj _ => "object"

mutual
/-- JavaScript `String(x)` on a JSON value (used by `parseCommand` to
extract an id of any type). -/
def jsToString : Json → String
  | .null => "null"
  | .bool b => if b then "true" else "false"
  | .num n => toString n
  | .str s => s
  | .obj _ => "[object Object]"
  | .arr xs => jsArrElems xs
def jsArrElems : List Json → String
  | [] => ""
  | [x] => jsElem x
  | x :: xs => jsElem x ++ "," ++ jsArrElems xs
def jsElem : Json → String
  | .null => ""
  | j => jsToString j
end

/-- `typeof json === "object" && json !== null && "id" in json ?
String(json.id) : undefined` (JS arrays have no `"id"` property). -/
def extractId : Json → Option String
  | .obj fields => (lookupField fields "id").map jsToString
  | _ => none

/-- The discriminated union of command shapes (`commandSchema`). -/
inductive Command where
  | ping (id : String)
  | run (id : String) (session : String) (name : String) (durationMs : Option Int)
  | status (id : String) (session : String) (taskId : Option String)
  | stop (id : String) (session : String) (taskId : Option String)
  | sessionList (id : String)
  | subscribe (id : String)
deriving DecidableEq, Repr

/-- The correlation id field shared by all command shapes. -/
def Command.cid : Command → String
  | .ping i => i
  | .run i _ _ _ => i
  | .status i _ _ => i
  | .stop i _ _ => i
  | .sessionList i => i
  | .subscribe i => i

def Command.isSubscribe : Command → Bool
  | .subscribe _ => true
  | _ => false

/-- The zod refinements of the command schema: non-empty `session` and
`name` (`z.string().min(1)`), positive `durationMs`
(`z.number().positive()`). -/
def validCommand : Command → Bool
  | .run _ s n d =>
      (1 ≤ s.length) && (1 ≤ n.length) &&
      (match d with | some v => 0 < v | none => true)
  | .status _ s _ => 1 ≤ s.length
  | .stop _ s _ => 1 ≤ s.length
  | _ => true

/-- One zod issue: field path and message. -/
abbrev Issue := List String × String

def invalidDiscriminatorMsg : String :=
  "Invalid discriminator value. Expected 'ping' | 'run' | 'status' | 'stop' | 'session_list' | 'subscribe'"

/-- `z.string()` on one object field. -/
def fieldString (fields : List (String × Json)) (key : String) :
    Except Issue String :=
  match lookupField fields key with
  | none => .error ([key], "Required")
  | some (.str s) => .ok s
  | some other => .error ([key], "Expected string, received " ++ typeName other)

/-- `z.string().min(1)` on one object field. -/
def fieldStringMin1 (fields : List (String × Json)) (key : String) :
    Except Issue String :=
  match fieldString fields key with
  | .error e => .error e
  | .ok s =>
    if s.length < 1 then
      .error ([key], "String must contain at least 1 character(s)")
    else .ok s

/-- `z.string().optional()` on one object field. -/
def fieldOptString (fields : List (String × Json)) (key : String) :
    Except Issue (Option String) :=
  match lookupField fields key with
  | none => .ok none
  | some (.str s) => .ok (some s)
  | some other => .error ([key], "Expected string, received " ++ typeName other)

/-- `z.number().positive().optional()` on one object field. -/
def fieldOptPosNum (fields : List (String × Json)) (key : String) :
    Except Issue (Option Int) :=
  match lookupField fields key with
  | none => .ok none
  | some (.num n) =>
    if 0 < n then .ok (some n)
    else .error ([key], "Number must be greater than 0")
  | some other => .error ([key], "Expected number, received " ++ typeName other)

def issueOf {α : Type} : Except Issue α → List Issue
  | .error e => [e]
  | .ok _ => []

/-- Validation of the variant matched by the discriminator, collecting
issues in shape-key order (zod object parsing). -/
def validateVariant (fields : List (String × Json)) (action : String) :
    Except (List Issue) Command :=
  match action with
  | "ping" =>
    match fieldString fields "id" with
    | .ok i => .ok (.ping i)
    | .error e => .error [e]
  | "run" =>
    let ri := fieldString fields "id"
    let rs := fieldStringMin1 fields "session"
    let rn := fieldStringMin1 fields "name"
    let rd := fieldOptPosNum fields "durationMs"
    match ri, rs, rn, rd with
    | .ok i, .ok s, .ok n, .ok d => .ok (.run i s n d)
    | _, _, _, _ => .error (issueOf ri ++ issueOf rs ++ issueOf rn ++ issueOf rd)
  | "status" =>
    let ri := fieldString fields "id"
    let rs := fieldStringMin1 fields "session"
    let rt := fieldOptString fields "taskId"
    match ri, rs, rt with
    | .ok i, .ok s, .ok t => .ok (.status i s t)
    | _, _, _ => .error (issueOf ri ++ issueOf rs ++ issueOf rt)
  | "stop" =>
    let ri := fieldString fields "id"
    let rs := fieldStringMin1 fields "session"
    let rt := fieldOptString fields "taskId"
    match ri, rs, rt with
    | .ok i, .ok s, .ok t => .ok (.stop i s t)
    | _, _, _ => .error (issueOf ri ++ issueOf rs ++ issueOf rt)
  | "session_list" =>
    match fieldString fields "id" with
    | .ok i => .ok (.sessionList i)
    | .error e => .error [e]
  | "subscribe" =>
    match fieldString fields "id" with
    | .ok i => .ok (.subscribe i)
    | .error e => .error [e]
  | _ => .error [(["action"], invalidDiscriminatorMsg)]

/-- `commandSchema.safeParse` (a `z.discriminatedUnion` on `action`). -/
def validateCommand : Json → Except (List Issue) Command
  | .obj fields =>
    match lookupField fields "action" with
    | some (.str a) => validateVariant fields a
    | _ => .error [(["action"], invalidDiscriminatorMsg)]
  | other => .error [([], "Expected object, received " ++ typeName other)]

/-- `result.error.errors.map(e => path.join(".") + ": " + e.message).join(", ")`. -/
def formatIssues (issues : List Issue) : String :=
  String.intercalate ", "
    (issues.map (fun i => String.intercalate "." i.1 ++ ": " ++ i.2))

structure ParseError where
  error : String
  id : Option String
deriving DecidableEq, Repr

inductive ParseResult where
  | ok (command : Command)
  | err (e : ParseError)
deriving DecidableEq, Repr

/-- `parseCommand` from `protocol.ts`; `none` models a line on which
`JSON.parse` throws. -/
def parseCommand (input : Option Json) : ParseResult :=
  match input with
  | none => .err { error := "Invalid JSON", id := none }
  | some j =>
    match validateCommand j with
    | .ok c => .ok c
    | .error issues =>
      .err { error := "Validation error: " ++ formatIssues issues,
             id := extractId j }

structure Response where
  id : String
  success : Bool
  data : Option Json := none
  error : Option String := none
deriving Repr

def successResponse (id : String) (data : Json) : Response :=
  { id := id, success := true, data := some data }

def errorResponse (id : String) (error : String) : Response :=
  { id := id, success := false, error := some error }

/-- `JSON.stringify(response)`: key insertion order, `undefined` fields
omitted. -/
def serializeResponse (r : Response) : Json :=
  .obj ([("id", .str r.id), ("success", .bool r.success)] ++
    (match r.data with | some d => [("data", d)] | none => []) ++
    (match r.error with | some e => [("error", .str e)] | none => []))

/-- The client's `JSON.parse(line) as Response`: reading the wire object
back as a `Response` record. -/
def readResponse : Json → Option Response
  | .obj fields =>
    match lookupField fields "id", lookupField fields "success" with
    | some (.str i), some (.bool b) =>
      some { id := i, success := b,
             data := lookupField fields "data",
             error := match lookupField fields "error" with
               | some (.str e) => some e
               | _ => none }
    | _, _ => none
  | _ => none

/-- The JSON object a client sends for a command
(`JSON.stringify(payload)`: insertion order, `undefined` omitted). -/
def encodeCommand : Command → Json
  | .ping i => .obj [("id", .str i), ("action", .str "ping")]
  | .run i s n d =>
    .obj ([("id", .str i), ("action", .str "run"),
           ("session", .str s), ("name", .str n)] ++
      (match d with | some v => [("durationMs", .num v)] | none => []))
  | .status i s t =>
    .obj ([("id", .str i), ("action", .str "status"), ("session", .str s)] ++
      (match t with | some v => [("taskId", .str v)] | none => []))
  | .stop i s t =>
    .obj ([("id", .str i), ("action", .str "stop"), ("session", .str s)] ++
      (match t with | some v => [("taskId", .str v)] | none => []))
  | .sessionList i => .obj [("id", .str i), ("action", .str "session_list")]
  | .subscribe i => .obj [("id", .str i), ("action", .str "subscribe")]

/-! ## Claim C5: wire round-trip -/

/-- C5.  Encoding any valid `Command` the way the client does and then
decoding it with `parseCommand` succeeds and returns an equal command;
and `serializeResponse` followed by the client's JSON read yields a
`Response` equal to the original. -/
theorem C5_roundtrip :
    (∀ c : Command, validCommand c = true →
      parseCommand (some (encodeCommand c)) = .ok c) ∧
    (∀ r : Response, readResponse (serializeResponse r) = some r) := by
  constructor
  · intro c hv
    cases c with
    | ping i => rfl
    | run i s n d =>
      simp only [validCommand, Bool.and_eq_true, decide_eq_true_eq] at hv
      obtain ⟨⟨hs, hn⟩, hd⟩ := hv
      cases d with
      | none =>
        simp [parseCommand, encodeCommand, validateCommand, validateVariant,
          fieldString, fieldStringMin1, fieldOptPosNum, lookupField,
          Nat.not_lt.mpr hs, Nat.not_lt.mpr hn]
      | some v =>
        have hv' : (0 : Int) < v := by simpa using hd
        simp [parseCommand, encodeCommand, validateCommand, validateVariant,
          fieldString, fieldStringMin1, fieldOptPosNum, lookupField,
          Nat.not_lt.mpr hs, Nat.not_lt.mpr hn, hv']
    | status i s t =>
      simp only [validCommand, decide_eq_true_eq] at hv
      cases t with
      | none =>
        simp [parseCommand, encodeCommand, validateCommand, validateVariant,
          fieldString, fieldStringMin1, fieldOptString, lookupField,
          Nat.not_lt.mpr hv]
      | some v =>
        simp [parseCommand, encodeCommand, validateCommand, validateVariant,
          fieldString, fieldStringMin1, fieldOptString, lookupField,
          Nat.not_lt.mpr hv]
    | stop i s t =>
      simp only [validCommand, decide_eq_true_eq] at hv
      cases t with
      | none =>
        simp [parseCommand, encodeCommand, validateCommand, validateVariant,
          fieldString, fieldStringMin1, fieldOptString, lookupField,
          Nat.not_lt.mpr hv]
      | some v =>
        simp [parseCommand, encodeCommand, validateCommand, validateVariant,
          fieldString, fieldStringMin1, fieldOptString, lookupField,
          Nat.not_lt.mpr hv]
    | sessionList i => rfl
    | subscribe i => rfl
  · intro r
    obtain ⟨i, succ, dat, err⟩ := r
    cases dat <;> cases err <;> rfl

/-- Witness for C5 at a concrete valid command. -/
theorem C5_roundtrip_witness :
    parseCommand (some (encodeCommand (.run "1" "s1" "build" (some 50)))) =
      .ok (.run "1" "s1" "build" (some 50)) :=
  C5_roundtrip.1 _ (by decide)

/-! ## The daemon connection loop (`stream.ts`) -/

structure LineResult where
  response : Response
  dispatched : Bool
  subscribed : Bool
deriving Repr

/-- The body of the daemon's per-line handler (`startDaemon`, the
`while (buffer.includes("\x0a"))` loop body): parse the line, answer
parse failures directly, special-case `subscribe`, otherwise dispatch
inside the try/catch.  `dispatch` abstracts `dispatchCommand`; an
`Except.error` models a handler throwing.  `dispatched` records whether
the dispatcher was reached; `subscribed` whether the connection was added
to the subscriber set. -/
def handleParsed (dispatch : Command → Except String Json)
    (c : Command) : LineResult :=
  if c.isSubscribe then
    { response := successResponse c.cid (.obj [("subscribed", .bool true)]),
      dispatched := false, subscribed := true }
  else
    match dispatch c with
    | .ok d =>
      { response := successResponse c.cid d,
        dispatched := true, subscribed := false }
    | .error msg =>
      { response := errorResponse "error" msg,
        dispatched := true, subscribed := false }

def handleLine (dispatch : Command → Except String Json)
    (input : Option Json) : LineResult :=
  match parseCommand input with
  | .err e =>
    { response := errorResponse (e.id.getD "unknown") e.error,
      dispatched := false, subscribed := false }
  | .ok c => handleParsed dispatch c

/-! ## Claim C6: decode and validation failure responses -/

/-- C6.  A line that is not valid JSON yields a failure `Response` with
the sentinel id `"unknown"` and an error describing the decode failure,
without reaching the dispatcher; a line that decodes but matches no
command shape yields the comma-joined
`"Validation error: <field path>: <reason>"` failure with the extracted
id when one is present (still without reaching the dispatcher); in
particular an object missing `action` yields
`Validation error: action: Invalid discriminator value. …` under the
extracted id. -/
theorem C6_invalid_line_responses :
    (∀ dispatch : Command → Except String Json,
      handleLine dispatch none =
        { response := errorResponse "unknown" "Invalid JSON",
          dispatched := false, subscribed := false }) ∧
    (∀ (dispatch : Command → Except String Json) (j : Json)
        (issues : List Issue),
      validateCommand j = .error issues →
      handleLine dispatch (some j) =
        { response := errorResponse ((extractId j).getD "unknown")
            ("Validation error: " ++ formatIssues issues),
          dispatched := false, subscribed := false }) ∧
    (∀ dispatch : Command → Except String Json,
      handleLine dispatch (some (.obj [("id", .str "req-1")])) =
        { response := errorResponse "req-1"
            ("Validation error: action: " ++ invalidDiscriminatorMsg),
          dispatched := false, subscribed := false }) := by
  refine ⟨fun _ => rfl, ?_, ?_⟩
  · intro dispatch j issues hval
    simp [handleLine, parseCommand, hval]
  · intro dispatch
    simp [handleLine, parseCommand, validateCommand, lookupField, extractId,
      jsToString, formatIssues, errorResponse]
    rfl

/-- Witness for C6: a `run` command missing `session` and `name`. -/
theorem C6_invalid_line_responses_witness :
    handleLine (fun _ => .ok .null)
        (some (.obj [("id", .str "abc"), ("action", .str "run")])) =
      { response := errorResponse "abc"
          "Validation error: session: Required, name: Required",
        dispatched := false, subscribed := false } := by
  have h := C6_invalid_line_responses.2.1 (fun _ => .ok .null)
    (.obj [("id", .str "abc"), ("action", .str "run")])
    [(["session"], "Required"), (["name"], "Required")] rfl
  rw [h]
  simp [extractId, lookupField, jsToString, formatIssues]
  rfl

/-! ## Claim C7: handler errors and the response id -/

/-- C7 (divergence witness).  When a recognized command's handler throws,
the daemon does convert the error into a failure `Response` carrying the
error's message, written on the same connection with no exception
escaping the per-connection boundary (`handleLine` is total) — but the
response's id is the hard-coded sentinel `"error"`, NOT the command's
correlation id: for the command with id `"42"` whose handler throws
`"boom"`, the response is `{id:"error", success:false, error:"boom"}`.
The repository's own `docs/architecture.md` documents runtime errors as
`{"id": "uuid", …}`, so the code contradicts its documentation here. -/
theorem C7_handler_error_uses_sentinel_id :
    (∀ (dispatch : Command → Except String Json) (c : Command) (msg : String),
      c.isSubscribe = false → dispatch c = .error msg →
      handleParsed dispatch c =
        { response := errorResponse "error" msg,
          dispatched := true, subscribed := false }) ∧
    (handleLine (fun _ => Except.error "boom")
        (some (encodeCommand (Command.ping "42")))).response =
      errorResponse "error" "boom" ∧
    ((handleLine (fun _ => Except.error "boom")
        (some (encodeCommand (Command.ping "42")))).response.id ≠ "42") := by
  refine ⟨?_, rfl, by decide⟩
  intro dispatch c msg hsub herr
  simp [handleParsed, hsub, herr]

/-- Witness for C7's general part at a concrete throwing handler. -/
theorem C7_handler_error_uses_sentinel_id_witness :
    handleParsed (fun _ => Except.error "boom") (Command.ping "42") =
      { response := errorResponse "error" "boom",
        dispatched := true, subscribed := false } :=
  C7_handler_error_uses_sentinel_id.1 _ (Command.ping "42") "boom" rfl rfl

/-! ## The event broadcaster (`stream.ts`)

Connections are identified by naturals.  `broadcast(event)` encodes the
event once and writes the line to every subscriber in set order, removing
a subscriber whose write throws; a closing connection removes itself from
the set. -/

/-- `EventMessage` from `protocol.ts` (`task` and `session` events). -/
inductive EventMessage where
  | task (session : String) (taskId : String) (name : String)
      (status : TaskStatus) (timestamp : Nat)
  | sessionEvent (session : String) (timestamp : Nat)
deriving DecidableEq, Repr

def statusString : TaskStatus → String
  | .queued => "queued"
  | .running => "running"
  | .completed => "completed"
  | .failed => "failed"
  | .cancelled => "cancelled"

/-- `serializeEvent` (`JSON.stringify` of the event object). -/
def serializeEvent : EventMessage → Json
  | .task session taskId name status timestamp =>
    .obj [("type", .str "task"), ("session", .str session),
          ("taskId", .str taskId), ("name", .str name),
          ("status", .str (statusString status)),
          ("timestamp", .num timestamp)]
  | .sessionEvent session timestamp =>
    .obj [("type", .str "session"), ("session", .str session),
          ("timestamp", .num timestamp)]

/-- Broadcaster state: the subscriber set (JS `Set` iterates in insertion
order) and the log of successful writes `(connection, line)` in write
order. -/
structure BState where
  subscribers : List Nat
  delivered : List (Nat × Json)
deriving Repr

/-- The externally triggered broadcaster transitions: a connection's
`subscribe` command is acknowledged (`subscribers.add(socket)`), a
connection closes (`subscribers.delete(socket)`), or an event is
broadcast; `failSet` names the connections whose `socket.write` throws
during this broadcast. -/
inductive BOp where
  | sub (c : Nat)
  | close (c : Nat)
  | bcast (e : EventMessage) (failSet : List Nat)
deriving Repr

def bstep (s : BState) : BOp → BState
  | .sub c =>
    if c ∈ s.subscribers then s
    else { s with subscribers := s.subscribers ++ [c] }
  | .close c => { s with subscribers := s.subscribers.filter (fun d => d ≠ c) }
  | .bcast e failSet =>
    { subscribers := s.subscribers.filter (fun d => d ∉ failSet),
      delivered := s.delivered ++
        (s.subscribers.filter (fun d => d ∉ failSet)).map
          (fun d => (d, serializeEvent e)) }

def brun (s : BState) (ops : List BOp) : BState := ops.foldl bstep s

/-- The lines written to one connection, in order. -/
def deliveredTo (c : Nat) (s : BState) : List Json :=
  (s.delivered.filter (fun p => p.1 = c)).map Prod.snd

/-- The encoded events broadcast in a trace, in emission order. -/
def bcastsOf (ops : List BOp) : List Json :=
  ops.filterMap (fun op => match op with
    | .bcast e _ => some (serializeEvent e)
    | _ => none)

/-- An op that neither closes connection `c` nor fails a write to it. -/
def benign (c : Nat) : BOp → Bool
  | .sub _ => true
  | .close d => d ≠ c
  | .bcast _ failSet => c ∉ failSet

theorem bstep_nodup {s : BState} (hnd : s.subscribers.Nodup) (op : BOp) :
    (bstep s op).subscribers.Nodup := by
  cases op with
  | sub c =>
    by_cases hc : c ∈ s.subscribers
    · simpa [bstep, hc] using hnd
    · simp only [bstep, if_neg hc]
      rw [List.nodup_append]
      refine ⟨hnd, by simp, ?_⟩
      intro a ha
      simp only [List.mem_singleton]
      intro hcc
      rw [hcc] at ha
      exact hc ha
  | close c => exact hnd.filter _
  | bcast e f => exact hnd.filter _

theorem deliver_filter_self {subs : List Nat} {f : List Nat} {c : Nat}
    (hnd : subs.Nodup) (hc : c ∈ subs) (hcf : c ∉ f) (line : Json) :
    (((subs.filter (fun d => d ∉ f)).map (fun d => (d, line))).filter
        (fun p => p.1 = c)).map Prod.snd = [line] := by
  induction subs with
  | nil => cases hc
  | cons a subs ih =>
    obtain ⟨hna, hnd'⟩ := List.nodup_cons.mp hnd
    by_cases hac : a = c
    · subst hac
      have hrest : ((subs.filter (fun d => d ∉ f)).map
          (fun d => (d, line))).filter (fun p => p.1 = a) = [] := by
        rw [List.filter_eq_nil_iff]
        intro p hp
        obtain ⟨d, hd, rfl⟩ := List.mem_map.mp hp
        have hds : d ∈ subs := (List.mem_filter.mp hd).1
        simp only [decide_eq_true_eq]
        intro hcc
        rw [hcc] at hds
        exact hna hds
      rw [List.filter_cons, if_pos (by simpa using hcf), List.map_cons,
        List.filter_cons, if_pos (by simp), List.map_cons, hrest]
      rfl
    · have hc' : c ∈ subs := by
        rcases List.mem_cons.mp hc with h | h
        · exact absurd h.symm hac
        · exact h
      by_cases haf : a ∈ f
      · simp only [List.filter_cons]
        rw [if_neg (by simpa using haf)]
        exact ih hnd' hc'
      · simp only [List.filter_cons]
        rw [if_pos (by simpa using haf)]
        simp only [List.map_cons, List.filter_cons]
        rw [if_neg (by simpa using hac)]
        exact ih hnd' hc'

theorem deliver_filter_none {subs : List Nat} {c : Nat} (hc : c ∉ subs)
    (line : Json) (P : Nat → Bool) :
    ((subs.filter P).map (fun d => (d, line))).filter (fun p => p.1 = c) = [] := by
  rw [List.filter_eq_nil_iff]
  intro p hp
  obtain ⟨d, hd, rfl⟩ := List.mem_map.mp hp
  have : d ∈ subs := (List.mem_filter.mp hd).1
  simp only [decide_eq_true_eq]
  intro hcc
  exact hc (hcc ▸ this)

/-- Delivery for a subscribed connection over a trace of benign ops. -/
theorem brun_delivery {c : Nat} (ops : List BOp) (s : BState)
    (hnd : s.subscribers.Nodup) (hc : c ∈ s.subscribers)
    (hben : ∀ op ∈ ops, benign c op = true) :
    deliveredTo c (brun s ops) = deliveredTo c s ++ bcastsOf ops ∧
    c ∈ (brun s ops).subscribers ∧ (brun s ops).subscribers.Nodup := by
  induction ops generalizing s with
  | nil => exact ⟨by simp [brun, bcastsOf], hc, hnd⟩
  | cons op ops ih =>
    have hben' : ∀ o ∈ ops, benign c o = true :=
      fun o ho => hben o (List.mem_cons_of_mem _ ho)
    have hbenop := hben op (List.mem_cons_self _ _)
    have hnd1 : (bstep s op).subscribers.Nodup := bstep_nodup hnd op
    show deliveredTo c (brun (bstep s op) ops) = _ ∧ _ ∧ _
    cases op with
    | sub d =>
      have hc1 : c ∈ (bstep s (.sub d)).subscribers := by
        by_cases hd : d ∈ s.subscribers
        · simpa [bstep, hd] using hc
        · simp only [bstep, if_neg hd]
          exact List.mem_append_left _ hc
      have hdel : deliveredTo c (bstep s (.sub d)) = deliveredTo c s := by
        by_cases hd : d ∈ s.subscribers <;> simp [bstep, hd, deliveredTo]
      obtain ⟨h1, h2, h3⟩ := ih (bstep s (.sub d)) hnd1 hc1 hben'
      exact ⟨by rw [h1, hdel]; rfl, h2, h3⟩
    | close d =>
      have hdc : d ≠ c := by simpa [benign] using hbenop
      have hc1 : c ∈ (bstep s (.close d)).subscribers := by
        simp only [bstep]
        exact List.mem_filter.mpr ⟨hc, by simpa using fun hcc => hdc hcc.symm⟩
      have hdel : deliveredTo c (bstep s (.close d)) = deliveredTo c s := by
        simp [bstep, deliveredTo]
      obtain ⟨h1, h2, h3⟩ := ih (bstep s (.close d)) hnd1 hc1 hben'
      exact ⟨by rw [h1, hdel]; rfl, h2, h3⟩
    | bcast e f =>
      have hcf : c ∉ f := by simpa [benign] using hbenop
      have hc1 : c ∈ (bstep s (.bcast e f)).subscribers := by
        simp only [bstep]
        exact List.mem_filter.mpr ⟨hc, by simpa using hcf⟩
      have hdel : deliveredTo c (bstep s (.bcast e f)) =
          deliveredTo c s ++ [serializeEvent e] := by
        simp only [bstep, deliveredTo, List.filter_append, List.map_append]
        rw [deliver_filter_self hnd hc hcf]
      obtain ⟨h1, h2, h3⟩ := ih (bstep s (.bcast e f)) hnd1 hc1 hben'
      refine ⟨?_, h2, h3⟩
      rw [h1, hdel]
      simp [bcastsOf]

/-- A connection outside the subscriber set stays outside and receives
nothing, as long as it never re-subscribes. -/
theorem brun_no_delivery {c : Nat} (ops : List BOp) (s : BState)
    (hc : c ∉ s.subscribers) (hns : ∀ op ∈ ops, op ≠ .sub c) :
    deliveredTo c (brun s ops) = deliveredTo c s ∧
    c ∉ (brun s ops).subscribers := by
  induction ops generalizing s with
  | nil => exact ⟨by simp [brun], hc⟩
  | cons op ops ih =>
    have hns' : ∀ o ∈ ops, o ≠ .sub c :=
      fun o ho => hns o (List.mem_cons_of_mem _ ho)
    have hnsop := hns op (List.mem_cons_self _ _)
    show deliveredTo c (brun (bstep s op) ops) = _ ∧ _
    have hc1 : c ∉ (bstep s op).subscribers := by
      cases op with
      | sub d =>
        have hdc : d ≠ c := fun hcc => hnsop (by rw [hcc])
        by_cases hd : d ∈ s.subscribers
        · simpa [bstep, hd] using hc
        · simp only [bstep, if_neg hd]
          intro hmem
          rcases List.mem_append.mp hmem with h | h
          · exact hc h
          · simp only [List.mem_singleton] at h
            exact hdc h.symm
      | close d =>
        simp only [bstep]
        intro hmem
        exact hc (List.mem_filter.mp hmem).1
      | bcast e f =>
        simp only [bstep]
        intro hmem
        exact hc (List.mem_filter.mp hmem).1
    have hdel : deliveredTo c (bstep s op) = deliveredTo c s := by
      cases op with
      | sub d => by_cases hd : d ∈ s.subscribers <;> simp [bstep, hd, deliveredTo]
      | close d => simp [bstep, deliveredTo]
      | bcast e f =>
        simp only [bstep, deliveredTo, List.filter_append, List.map_append]
        rw [deliver_filter_none hc]
        simp
    obtain ⟨h1, h2⟩ := ih (bstep s op) hc1 hns'
    exact ⟨by rw [h1, hdel], h2⟩

/-! ## Claim C8: broadcast delivery -/

/-- C8.  (i) A connection in the subscriber set receives, across any
trace of operations that never closes it and never fails a write to it,
exactly the encoded events broadcast after that point, in emission order
(one line per event — `broadcast` encodes once and writes that line to
each subscriber).  (ii) A connection outside the set (e.g. one that
closed) receives nothing and stays outside unless it re-subscribes.
(iii) A write failure during a broadcast removes the connection from the
set and delivers nothing to it, with no retry.  (iv) A close removes the
connection from the set. -/
theorem C8_broadcast_delivery :
    (∀ (s : BState) (c : Nat) (ops : List BOp),
      s.subscribers.Nodup → c ∈ s.subscribers →
      (∀ op ∈ ops, benign c op = true) →
      deliveredTo c (brun s ops) = deliveredTo c s ++ bcastsOf ops ∧
        c ∈ (brun s ops).subscribers) ∧
    (∀ (s : BState) (c : Nat) (ops : List BOp),
      c ∉ s.subscribers → (∀ op ∈ ops, op ≠ .sub c) →
      deliveredTo c (brun s ops) = deliveredTo c s ∧
        c ∉ (brun s ops).subscribers) ∧
    (∀ (s : BState) (c : Nat) (e : EventMessage) (f : List Nat),
      c ∈ f →
      c ∉ (bstep s (.bcast e f)).subscribers ∧
        deliveredTo c (bstep s (.bcast e f)) = deliveredTo c s) ∧
    (∀ (s : BState) (c : Nat), c ∉ (bstep s (.close c)).subscribers) := by
  refine ⟨?_, ?_, ?_, ?_⟩
  · intro s c ops hnd hc hben
    obtain ⟨h1, h2, _⟩ := brun_delivery ops s hnd hc hben
    exact ⟨h1, h2⟩
  · intro s c ops hc hns
    exact brun_no_delivery ops s hc hns
  · intro s c e f hcf
    constructor
    · simp only [bstep]
      intro hmem
      have := (List.mem_filter.mp hmem).2
      simp at this
      exact this hcf
    · simp only [bstep, deliveredTo, List.filter_append, List.map_append]
      have : ((s.subscribers.filter (fun d => d ∉ f)).map
          (fun d => (d, serializeEvent e))).filter (fun p => p.1 = c) = [] := by
        rw [List.filter_eq_nil_iff]
        intro p hp
        obtain ⟨d, hd, rfl⟩ := List.mem_map.mp hp
        have hdf := (List.mem_filter.mp hd).2
        simp only [decide_eq_true_eq]
        intro hcc
        rw [hcc] at hdf
        simp at hdf
        exact hdf hcf
      rw [this]
      simp
  · intro s c
    simp only [bstep]
    intro hmem
    have := (List.mem_filter.mp hmem).2
    simp at this

/-- Witness for C8 at a concrete trace: connection 7 subscribed, two
events broadcast, connection 9 failing on the second. -/
theorem C8_broadcast_delivery_witness :
    deliveredTo 7 (brun { subscribers := [7, 9], delivered := [] }
        [.bcast (.sessionEvent "s1" 3) [],
         .bcast (.task "s1" "t1" "build" .queued 4) [9]]) =
      [] ++ bcastsOf
        [.bcast (.sessionEvent "s1" 3) [],
         .bcast (.task "s1" "t1" "build" .queued 4) [9]] ∧
    7 ∈ (brun { subscribers := [7, 9], delivered := [] }
        [.bcast (.sessionEvent "s1" 3) [],
         .bcast (.task "s1" "t1" "build" .queued 4) [9]]).subscribers := by
  have h := C8_broadcast_delivery.1 { subscribers := [7, 9], delivered := [] }
    7 [.bcast (.sessionEvent "s1" 3) [],
       .bcast (.task "s1" "t1" "build" .queued 4) [9]]
    (by decide) (by decide) (by decide)
  exact ⟨by rw [h.1]; rfl, h.2⟩

/-! ## The session registry and command handlers
(`commands/context.ts`, `commands/status.ts`, `commands/stop.ts`,
`commands/session-list.ts`) -/

structure ChatState where
  previousResponseId : Option String := none
  inFlight : Bool
deriving DecidableEq, Repr

structure SessionState where
  name : String
  createdAt : Nat
  runner : RunnerState
  chat : ChatState
deriving DecidableEq, Repr

/-- `CommandContext.sessions` (a `Map`, insertion-ordered), plus the ids
of `session` events emitted by `onSessionEvent`. -/
structure Ctx where
  sessions : List (String × SessionState)
  sessionEvents : List String
deriving Repr

def findSession (ctx : Ctx) (name : String) : Option SessionState :=
  (ctx.sessions.find? (fun p => p.1 = name)).map Prod.snd

/-- `getOrCreateSession`: return the existing session, or create one with
a fresh `TaskRunner` and empty chat state, store it, and emit a `session`
event. -/
def getOrCreateSession (ctx : Ctx) (name : String) (now : Nat) :
    SessionState × Ctx :=
  match findSession ctx name with
  | some sess => (sess, ctx)
  | none =>
    let sess : SessionState :=
      { name := name, createdAt := now, runner := initRunner,
        chat := { inFlight := false } }
    (sess, { sessions := ctx.sessions ++ [(name, sess)],
             sessionEvents := ctx.sessionEvents ++ [name] })

/-- Write a session's mutated runner back into the registry (the source
mutates the `TaskRunner` in place). -/
def setRunner (ctx : Ctx) (name : String) (r : RunnerState) : Ctx :=
  { ctx with
    sessions := ctx.sessions.map
      (fun p => if p.1 = name then (p.1, { p.2 with runner := r }) else p) }

/-- The payload shapes returned by `handleStatus` / `handleStop`. -/
inductive TaskQueryResult where
  | one (session : String) (task : Option TaskInfo)
  | all (session : String) (tasks : List TaskInfo)
deriving DecidableEq, Repr

/-- `handleStatus`: get-or-create the session, then report one task or
the whole list. -/
def handleStatus (session : String) (taskId : Option Nat) (now : Nat)
    (ctx : Ctx) : TaskQueryResult × Ctx :=
  let (sess, ctx') := getOrCreateSession ctx session now
  match taskId with
  | some tid => (.one sess.name (findTask sess.runner.tasks tid), ctx')
  | none => (.all sess.name sess.runner.tasks, ctx')

/-- `handleStop` with a `taskId`: get-or-create, cancel that task. -/
def handleStopOne (session : String) (tid : Nat) (now : Nat) (ctx : Ctx) :
    TaskQueryResult × Ctx :=
  let (sess, ctx') := getOrCreateSession ctx session now
  let res := cancelOp tid now sess.runner
  (.one sess.name res.1, setRunner ctx' sess.name res.2)

/-- `handleStop` without a `taskId`: cancel every task still `queued` or
`running`, in list order. -/
def stopAllTasks (now : Nat) (r : RunnerState) : RunnerState :=
  (r.tasks.map TaskInfo.id).foldl
    (fun acc tid =>
      match findTask acc.tasks tid with
      | some t =>
        if t.status = .queued ∨ t.status = .running then (cancelOp tid now acc).2
        else acc
      | none => acc) r

def handleStopAll (session : String) (now : Nat) (ctx : Ctx) :
    TaskQueryResult × Ctx :=
  let (sess, ctx') := getOrCreateSession ctx session now
  let r' := stopAllTasks now sess.runner
  (.all sess.name r'.tasks, setRunner ctx' sess.name r')

def handleStop (session : String) (taskId : Option Nat) (now : Nat)
    (ctx : Ctx) : TaskQueryResult × Ctx :=
  match taskId with
  | some tid => handleStopOne session tid now ctx
  | none => handleStopAll session now ctx

/-- `handleSessionList`: name, creation time and task count of every
session, in creation order. -/
def handleSessionList (ctx : Ctx) : List (String × Nat × Nat) :=
  ctx.sessions.map (fun p => (p.2.name, p.2.createdAt, p.2.runner.tasks.length))

/-! ## Claim C10: `status` and `stop` create absent sessions -/

def freshSession (name : String) (now : Nat) : SessionState :=
  { name := name, createdAt := now, runner := initRunner,
    chat := { inFlight := false } }

theorem find?_append_of_none {α : Type} {p : α → Bool} {l1 l2 : List α}
    (h : l1.find? p = none) : (l1 ++ l2).find? p = l2.find? p := by
  induction l1 with
  | nil => rfl
  | cons a l ih =>
    cases hpa : p a with
    | true =>
      rw [List.find?_cons_of_pos _ hpa] at h
      cases h
    | false =>
      rw [List.find?_cons_of_neg _ (by simp [hpa])] at h
      rw [List.cons_append, List.find?_cons_of_neg _ (by simp [hpa])]
      exact ih h

theorem getOrCreateSession_of_absent {ctx : Ctx} {name : String} {now : Nat}
    (h : findSession ctx name = none) :
    getOrCreateSession ctx name now =
      (freshSession name now,
       { sessions := ctx.sessions ++ [(name, freshSession name now)],
         sessionEvents := ctx.sessionEvents ++ [name] }) := by
  simp [getOrCreateSession, h, freshSession]

theorem findSession_none {ctx : Ctx} {name : String}
    (h : findSession ctx name = none) :
    ctx.sessions.find? (fun p => p.1 = name) = none := by
  by_contra hne
  obtain ⟨v, hv⟩ := Option.ne_none_iff_exists'.mp hne
  rw [findSession, hv] at h
  cases h

theorem findSession_created {ctx : Ctx} {name : String}
    {sess : SessionState} {es : List String}
    (h : findSession ctx name = none) :
    findSession
      { sessions := ctx.sessions ++ [(name, sess)], sessionEvents := es }
      name = some sess := by
  simp only [findSession]
  rw [find?_append_of_none (findSession_none h)]
  simp

theorem setRunner_created {ctx : Ctx} {name : String} {now : Nat}
    {es : List String}
    (h : findSession ctx name = none) :
    setRunner
      { sessions := ctx.sessions ++ [(name, freshSession name now)],
        sessionEvents := es } name initRunner =
      { sessions := ctx.sessions ++ [(name, freshSession name now)],
        sessionEvents := es } := by
  have h' : ∀ p ∈ ctx.sessions, ¬(p.1 = name) := by
    intro p hp
    have := List.find?_eq_none.mp (findSession_none h) p hp
    simpa using this
  have h1 : ctx.sessions.map
      (fun p => if p.1 = name then (p.1, { p.2 with runner := initRunner })
        else p) = ctx.sessions := by
    conv_rhs => rw [show ctx.sessions = ctx.sessions.map id from
      (List.map_id _).symm]
    refine List.map_congr_left ?_
    intro p hp
    simp [h' p hp]
  have h2 : ([(name, freshSession name now)] :
      List (String × SessionState)).map
      (fun p => if p.1 = name then (p.1, { p.2 with runner := initRunner })
        else p) = [(name, freshSession name now)] := by
    simp [freshSession]
  simp only [setRunner, List.map_append]
  rw [h1, h2]

theorem handleStatus_absent {ctx : Ctx} {name : String}
    {taskId : Option Nat} {now : Nat}
    (habs : findSession ctx name = none) :
    handleStatus name taskId now ctx =
      ((match taskId with
        | some _ => TaskQueryResult.one name none
        | none => TaskQueryResult.all name []),
       { sessions := ctx.sessions ++ [(name, freshSession name now)],
         sessionEvents := ctx.sessionEvents ++ [name] }) := by
  have hg := @getOrCreateSession_of_absent ctx name now habs
  cases taskId <;>
    simp [handleStatus, hg, freshSession, initRunner, findTask]

theorem handleStop_absent {ctx : Ctx} {name : String}
    {taskId : Option Nat} {now : Nat}
    (habs : findSession ctx name = none) :
    handleStop name taskId now ctx =
      ((match taskId with
        | some _ => TaskQueryResult.one name none
        | none => TaskQueryResult.all name []),
       { sessions := ctx.sessions ++ [(name, freshSession name now)],
         sessionEvents := ctx.sessionEvents ++ [name] }) := by
  have hg := @getOrCreateSession_of_absent ctx name now habs
  cases taskId with
  | some tid =>
    have hcancel : cancelOp tid now (freshSession name now).runner =
        (none, initRunner) := by
      simp [freshSession, cancelOp, initRunner, findTask]
    simp only [handleStop, handleStopOne, hg, hcancel]
    rw [show (freshSession name now).name = name from rfl,
      setRunner_created habs]
  | none =>
    have hstopall : stopAllTasks now (freshSession name now).runner =
        initRunner := rfl
    simp only [handleStop, handleStopAll, hg, hstopall]
    rw [show (freshSession name now).name = name from rfl,
      setRunner_created habs]
    rfl

/-- C10.  `status` and `stop` on a session name absent from the registry
create that session as a side effect (fresh task runner, zero tasks,
empty chat state), return a success payload rather than a not-found
error, and a subsequent `session_list` includes the new session with
`taskCount` 0. -/
theorem C10_status_stop_create_sessions (ctx : Ctx) (name : String)
    (taskId : Option Nat) (now : Nat)
    (habs : findSession ctx name = none) :
    findSession (handleStatus name taskId now ctx).2 name =
      some (freshSession name now) ∧
    (handleStatus name taskId now ctx).1 =
      (match taskId with
       | some _ => .one name none
       | none => .all name []) ∧
    (name, now, 0) ∈ handleSessionList (handleStatus name taskId now ctx).2 ∧
    findSession (handleStop name taskId now ctx).2 name =
      some (freshSession name now) ∧
    (handleStop name taskId now ctx).1 =
      (match taskId with
       | some _ => .one name none
       | none => .all name []) ∧
    (name, now, 0) ∈ handleSessionList (handleStop name taskId now ctx).2 := by
  have hmem : (name, now, 0) ∈ handleSessionList
      { sessions := ctx.sessions ++ [(name, freshSession name now)],
        sessionEvents := ctx.sessionEvents ++ [name] } := by
    simp only [handleSessionList, List.map_append]
    refine List.mem_append_right _ ?_
    simp [freshSession, initRunner]
  rw [handleStatus_absent habs, handleStop_absent habs]
  exact ⟨findSession_created habs, rfl, hmem,
    findSession_created habs, rfl, hmem⟩

/-- Witness for C10 on an empty registry. -/
theorem C10_status_stop_create_sessions_witness :
    findSession
      (handleStatus "s1" none 11 { sessions := [], sessionEvents := [] }).2
      "s1" = some (freshSession "s1" 11) ∧
    (handleStatus "s1" none 11 { sessions := [], sessionEvents := [] }).1 =
      .all "s1" [] ∧
    ("s1", 11, 0) ∈ handleSessionList
      (handleStatus "s1" none 11 { sessions := [], sessionEvents := [] }).2 ∧
    findSession
      (handleStop "s1" none 11 { sessions := [], sessionEvents := [] }).2
      "s1" = some (freshSession "s1" 11) ∧
    (handleStop "s1" none 11 { sessions := [], sessionEvents := [] }).1 =
      .all "s1" [] ∧
    ("s1", 11, 0) ∈ handleSessionList
      (handleStop "s1" none 11 { sessions := [], sessionEvents := [] }).2 :=
  C10_status_stop_create_sessions
    { sessions := [], sessionEvents := [] } "s1" none 11 rfl

end CliAgent
